import Mathlib

/-!
Verification of the resource/collection data-binding engine of the
sequoia-js-client-sdk repository, via a shallow embedding of the relevant
JavaScript sources (lib/predications.js, lib/query.js, lib/resource.js,
lib/resource_collection.js, lib/resourceful_endpoint.js) into Lean.

Modelling conventions:
  * JavaScript values that flow through the modelled code are either
    primitives (undefined, null, strings) or one-level containers
    (arrays of primitives, string-keyed maps of primitives).  The
    operations under verification (ref comparison, through-field
    filtering, link bookkeeping, field validation) only ever inspect
    values of these shapes, so deeper nesting is not modelled.
  * JavaScript objects are modelled as ordered association lists; key
    insertion order is preserved, keys are unique unless noted.
  * Promise rejections, thrown TypeErrors and synchronous returns are
    all modelled with `Except String`, carrying the message or a
    "TypeError" marker.  The === comparison in catch handlers against
    exported string constants is modelled by string equality.
  * Remote I/O (the Transport collaborator) is abstracted as a function
    parameter from request criteria to responses.
  * Host regular-expression evaluation (RegExp.test) is abstracted as a
    Boolean function parameter; no modelled claim depends on it.
-/

/-!  String utilities.  The corresponding core String functions recurse on
byte positions and do not reduce inside the kernel, so the JavaScript
string operations used by the modelled code are implemented here over
character lists. -/

/-- Split a character list at every occurrence of a separator. -/
def chSplit (sep : Char) : List Char → List (List Char)
  | [] => [[]]
  | c :: rest =>
    match chSplit sep rest with
    | [] => [[c]]
    | h :: t => if c = sep then [] :: h :: t else (c :: h) :: t

/-- JavaScript String.prototype.split with a one-character separator:
`"".split(x)` gives `[""]`, separators at the ends give empty pieces. -/
def strSplit (s : String) (sep : Char) : List String :=
  (chSplit sep s.toList).map String.mk

/-- Whether the first list is a prefix of the second. -/
def chPrefix : List Char → List Char → Bool
  | [], _ => true
  | _ :: _, [] => false
  | p :: ps, c :: cs => p = c && chPrefix ps cs

/-- JavaScript String.prototype.startsWith. -/
def strStartsWith (s p : String) : Bool := chPrefix p.toList s.toList

/-- JavaScript String.prototype.endsWith. -/
def strEndsWith (s p : String) : Bool := chPrefix p.toList.reverse s.toList.reverse

/-- Substring search over character lists. -/
def chContainsSub : List Char → List Char → Bool
  | [], pat => pat.isEmpty
  | l@(_ :: rest), pat => chPrefix pat l || chContainsSub rest pat

/-- JavaScript String.prototype.includes. -/
def strContainsSub (s pat : String) : Bool := chContainsSub s.toList pat.toList

/-- JavaScript Array.prototype.join with a separator string. -/
def strJoin (sep : String) : List String → String
  | [] => ""
  | [x] => x
  | x :: rest => x ++ sep ++ strJoin sep rest

/-- JavaScript primitive values as seen by the modelled code. -/
inductive JsPrim where
  | undefinedV : JsPrim
  | null : JsPrim
  | str : String → JsPrim
deriving DecidableEq, Repr

/-- JavaScript values: a primitive, an array of primitives, or a
string-keyed map of primitives (used for map-typed descriptor fields). -/
inductive JsVal where
  | prim : JsPrim → JsVal
  | arr : List JsPrim → JsVal
  | obj : List (String × JsPrim) → JsVal
deriving DecidableEq, Repr

/-- Shorthand for a string value. -/
def vStr (s : String) : JsVal := .prim (.str s)

/-- Shorthand for the undefined value. -/
def vUndefined : JsVal := .prim .undefinedV

/-- Shorthand for the null value. -/
def vNull : JsVal := .prim .null

/-- JavaScript truthiness for a primitive. -/
def JsPrim.truthy : JsPrim → Bool
  | .undefinedV => false
  | .null => false
  | .str s => s ≠ ""

/-- JavaScript truthiness: undefined, null and the empty string are falsy;
arrays and objects are always truthy. -/
def JsVal.truthy : JsVal → Bool
  | .prim p => p.truthy
  | .arr _ => true
  | .obj _ => true

/-- Strict equality (===) between primitives: structural on undefined, null
and strings. -/
def JsPrim.seq : JsPrim → JsPrim → Bool
  | .undefinedV, .undefinedV => true
  | .null, .null => true
  | .str a, .str b => a = b
  | _, _ => false

/-- Strict equality (===) between values.  Arrays and objects compare by
reference; all containers in the model arise from distinct parsed JSON
nodes, so container comparisons are false. -/
def JsVal.seq : JsVal → JsVal → Bool
  | .prim a, .prim b => a.seq b
  | _, _ => false

/-- String coercion of a primitive, as performed by template literals. -/
def JsPrim.coerce : JsPrim → String
  | .undefinedV => "undefined"
  | .null => "null"
  | .str s => s

/-- String coercion of a value, as performed by template literals and
RegExp.test: arrays join their elements with commas. -/
def JsVal.coerce : JsVal → String
  | .prim p => p.coerce
  | .arr l => strJoin "," (l.map JsPrim.coerce)
  | .obj _ => "[object Object]"

/-- A JavaScript object holding resource data: an ordered association
list from property names to values. -/
abbrev Obj := List (String × JsVal)

/-- Property read `o[k]` returning undefined when the key is absent. -/
def Obj.getV (o : Obj) (k : String) : JsVal :=
  match o.find? (fun kv => kv.1 = k) with
  | some kv => kv.2
  | none => vUndefined

/-- Property write `o[k] = v`: updates the first occurrence in place, or
appends the key (JavaScript objects keep insertion order). -/
def Obj.setV (o : Obj) (k : String) (v : JsVal) : Obj :=
  match o with
  | [] => [(k, v)]
  | kv :: rest => if kv.1 = k then (k, v) :: rest else kv :: Obj.setV rest k v

/-- Association-list lookup used for descriptor maps. -/
def alist.get {α : Type} (l : List (String × α)) (k : String) : Option α :=
  match l.find? (fun kv => kv.1 = k) with
  | some kv => some kv.2
  | none => none

/-- A relationship entry of the descriptor
(`resourceful.relationships[name]`). -/
structure Relationship where
  relType : Option String := none
  resourceType : Option String := none
  fieldNamePath : Option String := none
  filterName : Option String := none
  through : Option String := none
deriving DecidableEq, Repr

/-- A filter entry of the descriptor (`resourceful.filters[name]`). -/
structure FilterDef where
  fieldNamePath : Option String := none
deriving DecidableEq, Repr

/-- The `keys` sub-schema of a map-typed field's typeInfo. -/
structure KeysInfo where
  pattern : Option String := none
deriving DecidableEq, Repr

/-- The allowed values for one key of a map-typed field
(`typeInfo.values[key]`). -/
structure ValuesInfo where
  values : List JsPrim := []
deriving DecidableEq, Repr

/-- The typeInfo of a descriptor field. -/
structure TypeInfo where
  pattern : Option String := none
  keys : Option KeysInfo := none
  values : Option (List (String × ValuesInfo)) := none
deriving DecidableEq, Repr

/-- One descriptor field definition (`resourceful.fields[name]`).
`readOnly` models the strict `=== true` comparison made by the code;
descriptors carry Booleans there.  `required` is the truthiness of the
descriptor's required marker. -/
structure FieldDescr where
  typeInfo : Option TypeInfo := none
  allowedValueMappings : Option (List (String × JsPrim)) := none
  required : Bool := false
  readOnly : Bool := false
  defaultVal : Option JsVal := none
deriving DecidableEq, Repr

/-- The storeBatch operation limits of the descriptor. -/
structure StoreBatch where
  limit : Option Nat := none
deriving DecidableEq, Repr

/-- The operations section of the descriptor. -/
structure Operations where
  storeBatch : Option StoreBatch := none
deriving DecidableEq, Repr

/-- The descriptor data a ResourcefulEndpoint is constructed from.  The
endpoint object itself is a thin wrapper around this descriptor plus the
injected transport, so the model identifies an endpoint with its
descriptor; the transport appears as a function parameter where needed.
pluralName and singularName are mandatory in real descriptors and are
modelled as plain strings. -/
structure Resourceful where
  pluralName : String
  singularName : String
  hyphenatedPluralName : Option String := none
  location : Option String := none
  tenant : Option String := none
  relationships : Option (List (String × Relationship)) := none
  filters : Option (List (String × FilterDef)) := none
  fields : Option (List (String × FieldDescr)) := none
  operations : Option Operations := none
deriving DecidableEq, Repr

/-- ResourcefulEndpoint#batchSize: `operations.storeBatch.limit || 100`,
with 100 also used when operations or storeBatch are absent. -/
def Resourceful.batchSize (rf : Resourceful) : Nat :=
  match rf.operations with
  | some ops =>
    match ops.storeBatch with
    | some sb =>
      match sb.limit with
      | some l => if l = 0 then 100 else l
      | none => 100
    | none => 100
  | none => 100

/-!  Predications (lib/predications.js)  -/

/-- The Predications class state: the computed query parameter name. -/
structure Predications where
  field : String
deriving DecidableEq, Repr

/-- Capitalisation of the first character, as
`field.charAt(0).toUpperCase() + field.slice(1)` (ASCII letters; the
host toUpperCase agrees with Char.toUpper on them). -/
def capFirst (s : String) : String :=
  match s.toList with
  | [] => ""
  | c :: rest => String.mk (c.toUpper :: rest)

/-- The Predications constructor: raw mode keeps the field name, else it
is prefixed with "with" and capitalised. -/
def Predications.make (f : String) (raw : Bool) : Predications :=
  if raw then { field := f } else { field := "with" ++ capFirst f }

/-- equalTo(value) gives field=value. -/
def Predications.equalTo (p : Predications) (v : String) : String :=
  p.field ++ "=" ++ v

/-- notEqualTo(value) gives field=!value. -/
def Predications.notEqualTo (p : Predications) (v : String) : String :=
  p.field ++ "=!" ++ v

/-- oneOrMoreOf(...values) gives field=v1||v2||... -/
def Predications.oneOrMoreOf (p : Predications) (vs : List String) : String :=
  p.field ++ "=" ++ strJoin "||" vs

/-- startsWith(value) gives field=value*. -/
def Predications.startsWith (p : Predications) (v : String) : String :=
  p.field ++ "=" ++ v ++ "*"

/-- exists() gives field=*. -/
def Predications.existsP (p : Predications) : String :=
  p.field ++ "=*"

/-- notExists() gives field=!*. -/
def Predications.notExists (p : Predications) : String :=
  p.field ++ "=!*"

/-- between(start, end) gives field=start/end. -/
def Predications.between (p : Predications) (a b : String) : String :=
  p.field ++ "=" ++ a ++ "/" ++ b

/-- notBetween(start, end) gives field=!start/end. -/
def Predications.notBetween (p : Predications) (a b : String) : String :=
  p.field ++ "=!" ++ a ++ "/" ++ b

/-- lessThan(value) gives field=!value/. -/
def Predications.lessThan (p : Predications) (v : String) : String :=
  p.field ++ "=!" ++ v ++ "/"

/-- lessThanOrEqualTo(value) gives field=/value. -/
def Predications.lessThanOrEqualTo (p : Predications) (v : String) : String :=
  p.field ++ "=/" ++ v

/-- greaterThan(value) gives field=!/value. -/
def Predications.greaterThan (p : Predications) (v : String) : String :=
  p.field ++ "=!/" ++ v

/-- greaterThanOrEqualTo(value) gives field=value/. -/
def Predications.greaterThanOrEqualTo (p : Predications) (v : String) : String :=
  p.field ++ "=" ++ v ++ "/"

/-- The query.js export `field(value)`: a non-raw predicate builder. -/
def fieldBuilder (v : String) : Predications := Predications.make v false

/-- The query.js export `param(value)`: a raw predicate builder. -/
def paramBuilder (v : String) : Predications := Predications.make v true

theorem capFirst_eq (s : String) :
    capFirst s = String.mk ((s.toList.take 1).map Char.toUpper ++ s.toList.drop 1) := by
  cases s with
  | mk data =>
    cases data with
    | nil => rfl
    | cons c rest => rfl

/-- C8: a non-raw Predicate Builder for field name f emits fragments over
the parameter name "with" plus f with its first letter capitalised,
exactly per the grammar: equalTo(v) gives field=v; notEqualTo(v) gives
field=!v; oneOrMoreOf(v1..vn) gives field=v1||...||vn; startsWith(v)
gives field=v*; exists() gives field=*; notExists() gives field=!*;
between(a,b) gives field=a/b; notBetween(a,b) gives field=!a/b;
lessThan(v) gives field=!v/; lessThanOrEqualTo(v) gives field=/v;
greaterThan(v) gives field=!/v; greaterThanOrEqualTo(v) gives field=v/.
All methods are pure string constructions with no side effects. -/
theorem predications_grammar (f v a b : String) (vs : List String) :
    (fieldBuilder f).field
      = "with" ++ String.mk ((f.toList.take 1).map Char.toUpper ++ f.toList.drop 1) ∧
    (fieldBuilder f).equalTo v = (fieldBuilder f).field ++ "=" ++ v ∧
    (fieldBuilder f).notEqualTo v = (fieldBuilder f).field ++ "=!" ++ v ∧
    (fieldBuilder f).oneOrMoreOf vs
      = (fieldBuilder f).field ++ "=" ++ strJoin "||" vs ∧
    (fieldBuilder f).startsWith v = (fieldBuilder f).field ++ "=" ++ v ++ "*" ∧
    (fieldBuilder f).existsP = (fieldBuilder f).field ++ "=*" ∧
    (fieldBuilder f).notExists = (fieldBuilder f).field ++ "=!*" ∧
    (fieldBuilder f).between a b = (fieldBuilder f).field ++ "=" ++ a ++ "/" ++ b ∧
    (fieldBuilder f).notBetween a b = (fieldBuilder f).field ++ "=!" ++ a ++ "/" ++ b ∧
    (fieldBuilder f).lessThan v = (fieldBuilder f).field ++ "=!" ++ v ++ "/" ∧
    (fieldBuilder f).lessThanOrEqualTo v = (fieldBuilder f).field ++ "=/" ++ v ∧
    (fieldBuilder f).greaterThan v = (fieldBuilder f).field ++ "=!/" ++ v ∧
    (fieldBuilder f).greaterThanOrEqualTo v = (fieldBuilder f).field ++ "=" ++ v ++ "/" := by
  refine ⟨?_, rfl, rfl, rfl, rfl, rfl, rfl, rfl, rfl, rfl, rfl, rfl, rfl⟩
  simp [fieldBuilder, Predications.make, capFirst_eq]

/-!  Query (lib/query.js)  -/

/-- The Query class state: the accumulated query string, the pending sort
field and the sort direction modifier. -/
structure QueryState where
  query : String
  sort : Option String := none
  sortModifier : String := ""
deriving DecidableEq, Repr

/-- The Query constructor: `this.query = query || ''`. -/
def Query.new (criteria : Option String) : QueryState :=
  { query := match criteria with | some s => s | none => "", sort := none, sortModifier := "" }

/-- The query.js export `where(criteria)`. -/
def whereQ (criteria : Option String) : QueryState := Query.new criteria

/-- and(query): appends `&` plus the fragment. -/
def Query.andQ (q : QueryState) (frag : String) : QueryState :=
  { q with query := q.query ++ "&" ++ frag }

/-- count(): appends `&count=true`. -/
def Query.count (q : QueryState) : QueryState :=
  { q with query := q.query ++ "&count=true" }

/-- continue(): appends `&continue=true` (named continueQ in the model
because continue is reserved in Lean). -/
def Query.continueQ (q : QueryState) : QueryState :=
  { q with query := q.query ++ "&continue=true" }

/-- include(...includes): appends `&include=` plus the comma-joined names
(named includeQ in the model because include is reserved in Lean). -/
def Query.includeQ (q : QueryState) (includes : List String) : QueryState :=
  { q with query := q.query ++ "&include=" ++ strJoin "," includes }

/-- lang(value): appends `&lang=` plus the value. -/
def Query.lang (q : QueryState) (v : String) : QueryState :=
  { q with query := q.query ++ "&lang=" ++ v }

/-- fields(...fieldName): appends `&fields=` plus the comma-joined names. -/
def Query.fields (q : QueryState) (names : List String) : QueryState :=
  { q with query := q.query ++ "&fields=" ++ strJoin "," names }

/-- perPage(value): appends `&perPage=` plus the value (template-literal
coerced; the model takes the coerced string). -/
def Query.perPage (q : QueryState) (v : String) : QueryState :=
  { q with query := q.query ++ "&perPage=" ++ v }

/-- asc(): clears the sort modifier. -/
def Query.asc (q : QueryState) : QueryState :=
  { q with sortModifier := "" }

/-- desc(): sets the sort modifier to "-". -/
def Query.desc (q : QueryState) : QueryState :=
  { q with sortModifier := "-" }

/-- orderBy(fieldName): records the sort field. -/
def Query.orderBy (q : QueryState) (f : String) : QueryState :=
  { q with sort := some f }

/-- orderByOwner(): orderBy('owner'). -/
def Query.orderByOwner (q : QueryState) : QueryState := Query.orderBy q "owner"

/-- orderByName(): orderBy('name'). -/
def Query.orderByName (q : QueryState) : QueryState := Query.orderBy q "name"

/-- orderByCreatedAt(): orderBy('createdAt'). -/
def Query.orderByCreatedAt (q : QueryState) : QueryState := Query.orderBy q "createdAt"

/-- orderByCreatedBy(): orderBy('createdBy'). -/
def Query.orderByCreatedBy (q : QueryState) : QueryState := Query.orderBy q "createdBy"

/-- orderByUpdatedAt(): orderBy('updatedAt'). -/
def Query.orderByUpdatedAt (q : QueryState) : QueryState := Query.orderBy q "updatedAt"

/-- orderByUpdatedBy(): orderBy('updatedBy'). -/
def Query.orderByUpdatedBy (q : QueryState) : QueryState := Query.orderBy q "updatedBy"

/-- toQueryString(): the accumulated query, with `&sort=<modifier><field>`
appended when a truthy sort is set. -/
def Query.toQueryString (q : QueryState) : String :=
  q.query ++ (match q.sort with
    | some s => if s = "" then "" else "&sort=" ++ q.sortModifier ++ s
    | none => "")

/-- The member names declared in the body of `class Query` in
lib/query.js, in source order.  This is the complete method table of the
class: an expression `query.m(...)` type-errors at run time for any m
outside this list (plus inherited Object members). -/
def Query.methodNames : List String :=
  ["constructor", "and", "count", "continue", "include", "lang", "fields",
   "perPage", "asc", "desc", "orderBy", "addRelatedThroughFields",
   "orderByOwner", "orderByName", "orderByCreatedAt", "orderByCreatedBy",
   "orderByUpdatedAt", "orderByUpdatedBy", "toQueryString"]

/-!  The qs parse/stringify pair used by Query.addRelatedThroughFields
(`queryString.parse(query, \x7b ignoreQueryPrefix: true, allowDots: true \x7d)`
and `queryString.stringify(parsed, \x7b encode: false, allowDots: true,
indices: false \x7d)`).  Modelled for flat keys (the keys produced by this
SDK contain no dots) and percent-escape-free fragments: parse splits on
`&`, drops empty segments, splits each segment at the first `=`, and
merges duplicate keys into arrays; stringify joins entries back with `&`,
rendering an array value as repeated key=value pairs (indices: false). -/

/-- A parsed query-string value: a single string or an array of strings
(from duplicate keys). -/
inductive QSVal where
  | s : String → QSVal
  | a : List String → QSVal
deriving DecidableEq, Repr

/-- Insert one key/value pair into a parsed query object, merging a
duplicate key into an array value. -/
def qsInsert (acc : List (String × QSVal)) (k v : String) : List (String × QSVal) :=
  match acc with
  | [] => [(k, .s v)]
  | kv :: rest =>
    if kv.1 = k then
      (match kv.2 with
       | .s v0 => (k, QSVal.a [v0, v])
       | .a l => (k, QSVal.a (l ++ [v]))) :: rest
    else kv :: qsInsert rest k v

/-- Split one query segment at its first `=`. -/
def qsSplitSeg (seg : String) : String × String :=
  match strSplit seg '=' with
  | [] => ("", "")
  | [k] => (k, "")
  | k :: rest => (k, strJoin "=" rest)

/-- qs.parse with ignoreQueryPrefix. -/
def qsParse (q : String) : List (String × QSVal) :=
  let q1 := if strStartsWith q "?" then q.drop 1 else q
  ((strSplit q1 '&').filter (fun s => s ≠ "")).foldl
    (fun acc seg => qsInsert acc (qsSplitSeg seg).1 (qsSplitSeg seg).2) []

/-- qs.stringify with encode: false and indices: false. -/
def qsStringify (l : List (String × QSVal)) : String :=
  strJoin "&" (l.map (fun kv =>
    match kv.2 with
    | .s v => kv.1 ++ "=" ++ v
    | .a vs => strJoin "&" (vs.map (fun v => kv.1 ++ "=" ++ v))))

/-- Update the value of a key in a parsed query object, in place, or
append the key (JavaScript property assignment order). -/
def qsSet (l : List (String × QSVal)) (k : String) (v : QSVal) : List (String × QSVal) :=
  match l with
  | [] => [(k, v)]
  | kv :: rest => if kv.1 = k then (k, v) :: rest else kv :: qsSet rest k v

/-- The include list of a parsed query: the comma-split include value
when present (an array value cannot be split and is handled by the
caller). -/
def Query.includesOf (parsed : List (String × QSVal)) : List String :=
  match alist.get parsed "include" with
  | some (.s v) => strSplit v ','
  | _ => []

/-- The fields list of a parsed query, empty when the directive is
absent. -/
def Query.fieldsOf (parsed : List (String × QSVal)) : List String :=
  match alist.get parsed "fields" with
  | some (.s v) => strSplit v ','
  | _ => []

/-- The through-target field paths contributed by an include list:
for each name, destructure `through` from `relationships[name] || ''`,
look up `relationships[through] || \x7b\x7d` (an absent or undefined
through reads the literal key "undefined"), take its fieldNamePath, and
keep only truthy results. -/
def Query.throughFieldPaths (relationships : List (String × Relationship))
    (includes : List String) : List String :=
  includes.filterMap (fun nm =>
    let through? : Option String :=
      match alist.get relationships nm with
      | some r => r.through
      | none => none
    let throughRel := alist.get relationships
      (match through? with | some t => t | none => "undefined")
    match throughRel with
    | some tr =>
      match tr.fieldNamePath with
      | some fp => if fp = "" then none else some fp
      | none => none
    | none => none)

/-- The parsed-object stage of Query.addRelatedThroughFields: parse the
accumulated query, read the include and fields directives (a duplicate
directive has an array value, on which the code calls String.split and
throws a TypeError), compute the contributed through-field paths, and
update the fields entry.  When nothing is contributed the parsed object
is returned as is (the code assigns undefined to fields, which stringify
skips; a present fields directive always re-renders to its own value). -/
def Query.artfParsed (q : QueryState) (relationships : List (String × Relationship))
    (allFields : List String) : Except String (List (String × QSVal)) :=
  let parsed := qsParse q.query
  match alist.get parsed "include" with
  | some (.a _) => .error "TypeError"
  | _ =>
    match alist.get parsed "fields" with
    | some (.a _) => .error "TypeError"
    | _ =>
      let includes := Query.includesOf parsed
      let fields := Query.fieldsOf parsed
      let filteredIncludes := Query.throughFieldPaths relationships includes
      let fields2 := if filteredIncludes.isEmpty then fields
        else (if fields.isEmpty then allFields else fields) ++ filteredIncludes
      if fields2.isEmpty then .ok parsed
      else .ok (qsSet parsed "fields" (.s (strJoin "," fields2)))

/-- addRelatedThroughFields(relationships, allFields): re-serialises the
parsed-object stage back into the accumulated query string. -/
def Query.addRelatedThroughFields (q : QueryState)
    (relationships : List (String × Relationship)) (allFields : List String) :
    Except String QueryState :=
  match Query.artfParsed q relationships allFields with
  | .error e => .error e
  | .ok parsed2 => .ok { q with query := qsStringify parsed2 }

deriving instance DecidableEq for Except

/-- A parsed query value that is not an array (duplicate-key) value. -/
def QSVal.isArr : QSVal → Bool
  | .a _ => true
  | _ => false

/-- Whether an optional parsed value is absent or a plain string. -/
def notArrOpt : Option QSVal → Bool
  | some v => !v.isArr
  | none => true

theorem chSplit_ne_nil (sep : Char) (l : List Char) : chSplit sep l ≠ [] := by
  cases l with
  | nil => simp [chSplit]
  | cons c rest =>
    simp only [chSplit]
    rcases h : chSplit sep rest with _ | ⟨h1, t⟩
    · simp
    · by_cases hc : c = sep <;> simp [hc]

/-- Joining character-list pieces with a separator. -/
def chJoin (sep : Char) : List (List Char) → List Char
  | [] => []
  | [x] => x
  | x :: rest => x ++ sep :: chJoin sep rest

theorem chJoin_chSplit (sep : Char) (l : List Char) : chJoin sep (chSplit sep l) = l := by
  induction l with
  | nil => rfl
  | cons c rest ih =>
    simp only [chSplit]
    rcases h : chSplit sep rest with _ | ⟨h1, t⟩
    · exact absurd h (chSplit_ne_nil sep rest)
    · rw [h] at ih
      by_cases hc : c = sep
      · subst hc
        cases t <;> simp_all [chJoin]
      · cases t <;> simp_all [chJoin]

theorem strJoin_mk (sep : Char) (ls : List (List Char)) :
    strJoin (String.mk [sep]) (ls.map String.mk) = String.mk (chJoin sep ls) := by
  induction ls with
  | nil => rfl
  | cons x rest ih =>
    cases rest with
    | nil => rfl
    | cons y t =>
      simp only [List.map, strJoin, chJoin] at *
      rw [ih]
      apply String.ext
      simp

theorem strJoin_strSplit (v : String) : strJoin "," (strSplit v ',') = v := by
  have h : ("," : String) = String.mk [','] := rfl
  rw [strSplit, h, strJoin_mk, chJoin_chSplit]
  cases v
  rfl

theorem strSplit_ne_nil (v : String) (c : Char) : strSplit v c ≠ [] := by
  simp only [strSplit]
  intro h
  exact chSplit_ne_nil c v.toList (by simpa using h)

theorem qsSet_self (l : List (String × QSVal)) (k : String) (v : QSVal)
    (h : alist.get l k = some v) : qsSet l k v = l := by
  induction l with
  | nil => simp [alist.get] at h
  | cons kv rest ih =>
    obtain ⟨k0, v0⟩ := kv
    by_cases hk : k0 = k
    · have hv : v0 = v := by
        simpa [alist.get, List.find?_cons, hk] using h
      simp [qsSet, hk, hv]
    · have h2 : alist.get rest k = some v := by
        simpa [alist.get, List.find?_cons, hk] using h
      simp [qsSet, hk, ih h2]

theorem qsSet_get (l : List (String × QSVal)) (k : String) (v : QSVal) :
    alist.get (qsSet l k v) k = some v := by
  induction l with
  | nil => simp [qsSet, alist.get, List.find?_cons]
  | cons kv rest ih =>
    obtain ⟨k0, v0⟩ := kv
    by_cases hk : k0 = k
    · simp [qsSet, hk, alist.get, List.find?_cons]
    · simpa [qsSet, hk, alist.get, List.find?_cons] using ih

/-- C5 (code evaluation): the body of `class Query` in lib/query.js
declares no `page` member, so `query.page(n)` throws a TypeError at run
time; the other directives claimed alongside it are all present.  The
repository's own test suite and the usage examples in client.js and the
README nevertheless call `.page(1)` and expect `&page=10` to be
appended. -/
theorem query_page_missing :
    "page" ∉ Query.methodNames ∧
    "and" ∈ Query.methodNames ∧
    "count" ∈ Query.methodNames ∧
    "continue" ∈ Query.methodNames ∧
    "include" ∈ Query.methodNames ∧
    "fields" ∈ Query.methodNames ∧
    "perPage" ∈ Query.methodNames ∧
    "lang" ∈ Query.methodNames ∧
    "orderBy" ∈ Query.methodNames := by
  decide

/-- C6 counterexample: for the accumulated query `&include=assets` (as
produced by `where().include('assets')`) and a relationships map in which
the included relationship has no through, addRelatedThroughFields does
not leave the query unchanged: qs re-serialisation drops the leading
ampersand, giving `include=assets`. -/
theorem addRelatedThroughFields_amp_counterexample :
    (Query.includeQ (whereQ none) ["assets"]).query = "&include=assets" ∧
    Query.addRelatedThroughFields (Query.includeQ (whereQ none) ["assets"])
        [("assets", { relType := some "indirect" })] []
      = .ok { query := "include=assets", sort := none, sortModifier := "" } ∧
    ("include=assets" : String) ≠ "&include=assets" := by
  refine ⟨by decide, by decide, by decide⟩

/-- C6 (amended): assuming the include and fields directives each occur
at most once in the accumulated query (a duplicate directive parses to an
array, on which the code's String.split call throws), then:
(a) an include list none of whose relationships has a through configured
contributes no through-field paths (given that the relationships map has
no literal "undefined" key, which the code would consult for an absent
through);
(b) when no through-field path is contributed, the parsed key/value
content of the query is left unchanged and the query string becomes its
qs re-serialisation (which may differ textually, e.g. a leading ampersand
is dropped);
(c) when paths xs are contributed and no fields directive was present,
the fields directive of the result is the full supplied field list plus
xs;
(d) when paths xs are contributed and a fields directive with value fv
was present, the result's fields directive is fv's comma-split list plus
xs. -/
theorem addRelatedThroughFields_amended (q : QueryState)
    (rels : List (String × Relationship)) (allFields : List String)
    (hInc : notArrOpt (alist.get (qsParse q.query) "include") = true)
    (hFld : notArrOpt (alist.get (qsParse q.query) "fields") = true) :
    ((∀ nm ∈ Query.includesOf (qsParse q.query),
        (alist.get rels nm).bind Relationship.through = none) →
      alist.get rels "undefined" = none →
      Query.throughFieldPaths rels (Query.includesOf (qsParse q.query)) = []) ∧
    (Query.throughFieldPaths rels (Query.includesOf (qsParse q.query)) = [] →
      Query.addRelatedThroughFields q rels allFields
        = .ok { q with query := qsStringify (qsParse q.query) }) ∧
    (∀ xs, Query.throughFieldPaths rels (Query.includesOf (qsParse q.query)) = xs →
      xs ≠ [] →
      alist.get (qsParse q.query) "fields" = none →
      Query.addRelatedThroughFields q rels allFields
        = .ok { q with query := qsStringify (qsSet (qsParse q.query) "fields"
            (.s (strJoin "," (allFields ++ xs)))) } ∧
      alist.get (qsSet (qsParse q.query) "fields"
          (.s (strJoin "," (allFields ++ xs)))) "fields"
        = some (.s (strJoin "," (allFields ++ xs)))) ∧
    (∀ xs fv, Query.throughFieldPaths rels (Query.includesOf (qsParse q.query)) = xs →
      xs ≠ [] →
      alist.get (qsParse q.query) "fields" = some (.s fv) →
      Query.addRelatedThroughFields q rels allFields
        = .ok { q with query := qsStringify (qsSet (qsParse q.query) "fields"
            (.s (strJoin "," (strSplit fv ',' ++ xs)))) } ∧
      alist.get (qsSet (qsParse q.query) "fields"
          (.s (strJoin "," (strSplit fv ',' ++ xs)))) "fields"
        = some (.s (strJoin "," (strSplit fv ',' ++ xs)))) := by
  refine ⟨?_, ?_, ?_, ?_⟩
  · intro hall hu
    rw [Query.throughFieldPaths, List.filterMap_eq_nil_iff]
    intro nm hnm
    have ht := hall nm hnm
    rcases hrel : alist.get rels nm with _ | r
    · rw [hrel] at ht
      simp only [hrel, hu]
    · rw [hrel] at ht
      simp only [Option.some_bind] at ht
      simp only [hrel, ht, hu]
  · intro hxs
    rcases hI : alist.get (qsParse q.query) "include" with _ | v <;>
    rcases hF : alist.get (qsParse q.query) "fields" with _ | w
    · simp [Query.addRelatedThroughFields, Query.artfParsed, hI, hF, hxs, Query.fieldsOf]
    · rcases w with fv | l
      · have hne := strSplit_ne_nil fv ','
        have hself : qsSet (qsParse q.query) "fields" (.s (strJoin "," (strSplit fv ','))) 
            = qsParse q.query := by
          rw [strJoin_strSplit]
          exact qsSet_self _ _ _ hF
        simp [Query.addRelatedThroughFields, Query.artfParsed, hI, hF, hxs,
              Query.fieldsOf, hne, hself]
      · rw [hF] at hFld
        simp [notArrOpt, QSVal.isArr] at hFld
    · rcases v with iv | l
      · simp [Query.addRelatedThroughFields, Query.artfParsed, hI, hF, hxs, Query.fieldsOf]
      · rw [hI] at hInc
        simp [notArrOpt, QSVal.isArr] at hInc
    · rcases v with iv | l
      · rcases w with fv | l2
        · have hne := strSplit_ne_nil fv ','
          have hself : qsSet (qsParse q.query) "fields" (.s (strJoin "," (strSplit fv ','))) 
              = qsParse q.query := by
            rw [strJoin_strSplit]
            exact qsSet_self _ _ _ hF
          simp [Query.addRelatedThroughFields, Query.artfParsed, hI, hF, hxs,
                Query.fieldsOf, hne, hself]
        · rw [hF] at hFld
          simp [notArrOpt, QSVal.isArr] at hFld
      · rw [hI] at hInc
        simp [notArrOpt, QSVal.isArr] at hInc
  · intro xs hxs hne hF
    rcases hI : alist.get (qsParse q.query) "include" with _ | v
    · refine ⟨?_, qsSet_get _ _ _⟩
      simp [Query.addRelatedThroughFields, Query.artfParsed, hI, hF, hxs,
            Query.fieldsOf, hne]
    · rcases v with iv | l
      · refine ⟨?_, qsSet_get _ _ _⟩
        simp [Query.addRelatedThroughFields, Query.artfParsed, hI, hF, hxs,
              Query.fieldsOf, hne]
      · rw [hI] at hInc
        simp [notArrOpt, QSVal.isArr] at hInc
  · intro xs fv hxs hne hF
    have hsne := strSplit_ne_nil fv ','
    rcases hI : alist.get (qsParse q.query) "include" with _ | v
    · refine ⟨?_, qsSet_get _ _ _⟩
      simp [Query.addRelatedThroughFields, Query.artfParsed, hI, hF, hxs,
            Query.fieldsOf, hne, hsne]
    · rcases v with iv | l
      · refine ⟨?_, qsSet_get _ _ _⟩
        simp [Query.addRelatedThroughFields, Query.artfParsed, hI, hF, hxs,
              Query.fieldsOf, hne, hsne]
      · rw [hI] at hInc
        simp [notArrOpt, QSVal.isArr] at hInc

/-- Witness for addRelatedThroughFields_amended: a concrete query with an
include whose relationship goes through `members` (fieldNamePath
memberRefs) and an existing fields directive `title`; the fields
directive of the result is `title,memberRefs`. -/
theorem addRelatedThroughFields_amended_witness :
    Query.addRelatedThroughFields
        { query := "&include=assets&fields=title", sort := none, sortModifier := "" }
        [("assets", { through := some "members" }),
         ("members", { fieldNamePath := some "memberRefs" })] ["ref"]
      = .ok { query := "include=assets&fields=title,memberRefs", sort := none,
              sortModifier := "" } := by
  have h := (addRelatedThroughFields_amended
      { query := "&include=assets&fields=title", sort := none, sortModifier := "" }
      [("assets", { through := some "members" }),
       ("members", { fieldNamePath := some "memberRefs" })] ["ref"]
      (by decide) (by decide)).2.2.2 ["memberRefs"] "title" (by decide) (by decide) (by decide)
  rw [h.1]
  decide

/-!  Resource (lib/resource.js)  -/

/-- The sentinel rejection value exported by lib/resource.js
(a template literal with leading and trailing newlines). -/
def NO_RESOURCEFUL_ENDPOINT_ERROR_RESOURCE : String :=
  "\nNo resourceful endpoint tied to this resource.\nYou should use resourcefulEndpoint.newResource(),\nor store this current resource with resourcefulEndpoint.store(resource).\n"

/-- The validation result record produced by Resource.validateField.
The ValidationError enum values are NONE 0, NO_FIELD 1, REQUIRED_FIELD 2,
NOT_ALLOWED 3, INVALID_VALUE 4, INVALID_MAP 5. -/
structure Validation where
  code : Nat
  field : String
  message : String
  typeInfo : Option TypeInfo
  valid : Bool
deriving DecidableEq, Repr

/-- The Resource instance state.  props models the own enumerable data
properties installed by `Object.assign(this, rawData)`; the linked
relationship buckets installed by ResourceCollection.setData are kept in
a structured field; indirect stores the property bags of the Resources
pushed onto indirectlyLinkedResources (the nested Resource wrappers are
flattened to their data). -/
structure ResourceM where
  rawData : Obj
  props : Obj
  linked : Option (List (String × List Obj)) := none
  endpoint : Option Resourceful := none
  indirect : List Obj := []
  errors : List Validation := []
deriving DecidableEq, Repr

/-- The Resource constructor. -/
def ResourceM.new (rawData : Obj) (endpoint : Option Resourceful) : ResourceM :=
  { rawData := rawData, props := rawData, linked := none, endpoint := endpoint,
    indirect := [], errors := [] }

/-- getResourceFields(): the descriptor's field map when the Resource is
tied to an endpoint with a descriptor, else null.  A descriptor without
a fields section yields undefined; both cases collapse to none (each
makes the subsequent `in` operator or Object.keys call throw). -/
def ResourceM.getResourceFields (r : ResourceM) : Option (List (String × FieldDescr)) :=
  match r.endpoint with
  | some rf => rf.fields
  | none => none

/-- toJSON(): for a descriptor-bound Resource, exactly the descriptor's
field set, taking the instance value when the property is present and
the descriptor default (possibly undefined) otherwise; for an unbound
Resource, the raw stored data. -/
def ResourceM.toJSON (r : ResourceM) : Obj :=
  match r.getResourceFields with
  | some fds =>
    fds.map (fun kv => (kv.1,
      match alist.get r.props kv.1 with
      | some v => v
      | none =>
        match kv.2.defaultVal with
        | some d => d
        | none => vUndefined))
  | none => r.rawData

/-- save(): rejects with the no-endpoint sentinel when unbound; when
bound, saves pending indirect links, flushes self (POST when is_new,
else PUT) and clears the pending-link list.  The remote round trip is
abstracted as a success. -/
inductive OpOutcome where
  | rejected : String → OpOutcome
  | performed : OpOutcome
deriving DecidableEq, Repr

/-- save() as described above. -/
def ResourceM.save (r : ResourceM) : OpOutcome × ResourceM :=
  match r.endpoint with
  | some _ => (.performed, { r with indirect := [] })
  | none => (.rejected NO_RESOURCEFUL_ENDPOINT_ERROR_RESOURCE, r)

/-- destroy(): rejects with the no-endpoint sentinel when unbound, else
delegates the DELETE to the endpoint (abstracted as a success). -/
def ResourceM.destroy (r : ResourceM) : OpOutcome × ResourceM :=
  match r.endpoint with
  | some _ => (.performed, r)
  | none => (.rejected NO_RESOURCEFUL_ENDPOINT_ERROR_RESOURCE, r)

/-- Object.keys of a field value: key list of a map, index strings of an
array or string, empty for other primitives (null and undefined are
excluded before this point in validateField). -/
def jsKeysOf : JsVal → List String
  | .obj m => m.map (fun kv => kv.1)
  | .arr l => (List.range l.length).map (fun i => Nat.repr i)
  | .prim (.str s) => (List.range s.length).map (fun i => Nat.repr i)
  | .prim _ => []

/-- Indexing a map-typed field value with a key, undefined when absent
or when the value is not a map. -/
def jsValAtKey (v : JsVal) (key : String) : JsPrim :=
  match v with
  | .obj m =>
    match alist.get m key with
    | some p => p
    | none => .undefinedV
  | _ => .undefinedV

/-- The rendering of an optional regex pattern inside a template
literal. -/
def patShow : Option String → String
  | some p => p
  | none => "undefined"

/-- The forEach loop of the map-typed branch of validateField: for each
key of the field value, an unmatched key appends an INVALID_MAP message;
otherwise, when a values sub-schema exists, `typeInfo.values[key].values`
is read (throwing a TypeError when the key has no entry) and a value
outside it appends an INVALID_MAP message.  The message accumulates over
all offending keys. -/
def validateMapKeys (rt : Option String → String → Bool) (field : String)
    (keysInfo : KeysInfo) (values? : Option (List (String × ValuesInfo)))
    (v : JsVal) : List String → String × Nat → Except String (String × Nat)
  | [], st => .ok st
  | key :: rest, (msg, code) =>
    if ¬ rt keysInfo.pattern key then
      validateMapKeys rt field keysInfo values? v rest
        (msg ++ field ++ "." ++ key ++ " does not match " ++ patShow keysInfo.pattern ++ ". ", 5)
    else
      match values? with
      | some vmap =>
        match alist.get vmap key with
        | none => .error "TypeError"
        | some vi =>
          if vi.values.any (fun av => av.seq (jsValAtKey v key)) then
            validateMapKeys rt field keysInfo values? v rest (msg, code)
          else
            validateMapKeys rt field keysInfo values? v rest
              (msg ++ field ++ "." ++ key ++ " is not one of "
               ++ strJoin ", " (vi.values.map JsPrim.coerce) ++ ". ", 5)
      | none => validateMapKeys rt field keysInfo values? v rest (msg, code)

/-- The message/code computation of validateField for a field present in
the descriptor, in the code's priority order: unset value (required or
not), readOnly, allowed-value mapping, pattern, map sub-schema.  rt is
the abstracted host RegExp.test. -/
def validateFieldCore (rt : Option String → String → Bool) (r : ResourceM)
    (field : String) (cf : FieldDescr) : Except String (String × Nat) :=
  let v := r.props.getV field
  if v = vUndefined ∨ v = vNull then
    if cf.required then .ok (field ++ " is required", 2) else .ok ("", 0)
  else if cf.readOnly then
    .ok ("", 0)
  else
    match cf.allowedValueMappings with
    | some avm =>
      let allowedValues := avm.map (fun kv => kv.2)
      if allowedValues.any (fun av => JsVal.seq v (.prim av)) then .ok ("", 0)
      else .ok (field ++ " is not one of " ++ strJoin ", " (allowedValues.map JsPrim.coerce), 3)
    | none =>
      match cf.typeInfo with
      | some ti =>
        match ti.pattern with
        | some pat =>
          if ¬ rt (some pat) v.coerce then .ok (field ++ " does not match " ++ pat, 4)
          else .ok ("", 0)
        | none =>
          match ti.keys with
          | some keysInfo => validateMapKeys rt field keysInfo ti.values v (jsKeysOf v) ("", 0)
          | none => .ok ("", 0)
      | none => .ok ("", 0)

/-- validateField(field): NO_FIELD for a name outside the descriptor,
otherwise the priority chain of validateFieldCore; valid iff the code is
NONE.  Throws (TypeError) when the Resource has no descriptor fields. -/
def ResourceM.validateField (rt : Option String → String → Bool) (r : ResourceM)
    (field : String) : Except String Validation :=
  match r.getResourceFields with
  | none => .error "TypeError"
  | some fds =>
    match alist.get fds field with
    | none =>
      .ok { code := 1, field := field, message := field ++ " does not exist",
            typeInfo := none, valid := false }
    | some cf =>
      match validateFieldCore rt r field cf with
      | .error e => .error e
      | .ok (msg, code) =>
        .ok { code := code, field := field, message := msg,
              typeInfo := cf.typeInfo, valid := code = 0 }

/-- The outcome of Resource.validate: a synchronous throw, a rejection
carrying the Resource, or a resolution carrying the Resource. -/
inductive ValidateOutcome where
  | thrown : String → ValidateOutcome
  | rejected : ValidateOutcome
  | resolved : ValidateOutcome
deriving DecidableEq, Repr

/-- The forEach loop of validate: run validateField over the descriptor
field names, pushing invalid results; a throw inside the loop leaves the
errors pushed so far. -/
def runValidations (rt : Option String → String → Bool) (r : ResourceM) :
    List (String × FieldDescr) → List Validation → Option String × List Validation
  | [], acc => (none, acc)
  | (fname, _) :: rest, acc =>
    match ResourceM.validateField rt r fname with
    | .error e => (some e, acc)
    | .ok val =>
      if val.valid then runValidations rt r rest acc
      else runValidations rt r rest (acc ++ [val])

/-- validate(): resets errors to [], then reads
Object.keys(getResourceFields()) — which throws a TypeError when
getResourceFields() is null (no endpoint) — and otherwise validates every
descriptor field, rejecting when any validation failed. -/
def ResourceM.validate (rt : Option String → String → Bool) (r : ResourceM) :
    ValidateOutcome × ResourceM :=
  let r1 := { r with errors := [] }
  match r1.getResourceFields with
  | none => (.thrown "TypeError", r1)
  | some fds =>
    match runValidations rt r1 fds [] with
    | (some e, acc) => (.thrown e, { r1 with errors := acc })
    | (none, acc) =>
      if acc.isEmpty then (.resolved, { r1 with errors := acc })
      else (.rejected, { r1 with errors := acc })

/-- ResourcefulEndpoint#relationshipFor(resourceTypeName): reverse lookup
of the relationships map by resourceType.  Object.entries on an absent
relationships map throws; a found entry under a falsy key name is
treated as not found by the code and also throws the lookup error. -/
def Resourceful.relationshipFor (rf : Resourceful) (relationshipName : String) :
    Except String Relationship :=
  match rf.relationships with
  | none => .error "TypeError"
  | some rels =>
    match rels.find? (fun kv => kv.2.resourceType = some relationshipName) with
    | some kv =>
      if kv.1 = "" then
        .error ("Relationship \x27" ++ relationshipName ++ "\x27 does not exist")
      else .ok kv.2
    | none => .error ("Relationship \x27" ++ relationshipName ++ "\x27 does not exist")

/-- Resource.getRelationshipFor(resource): a string argument is looked up
directly in the endpoint's relationships (throwing when absent); a
Resource argument is resolved through relationshipFor on its endpoint's
pluralName.  Reading members of an absent endpoint throws. -/
def ResourceM.getRelationshipFor (a : ResourceM) (arg : Sum String ResourceM) :
    Except String Relationship :=
  match arg with
  | .inl s =>
    match a.endpoint with
    | none => .error "TypeError"
    | some rf =>
      match rf.relationships with
      | none => .error "TypeError"
      | some rels =>
        match alist.get rels s with
        | some rel => .ok rel
        | none => .error ("Relationship \x27" ++ s ++ "\x27 does not exist")
  | .inr other =>
    match a.endpoint with
    | none => .error "TypeError"
    | some rf =>
      match other.endpoint with
      | none => .error "TypeError"
      | some orf => rf.relationshipFor orf.pluralName

/-- The `as || resource` argument selection of linkResource: an empty
override string is falsy and falls back to the Resource argument. -/
def ResourceM.linkArg (b : ResourceM) (asName : Option String) : Sum String ResourceM :=
  match asName with
  | some s => if s = "" then .inr b else .inl s
  | none => .inr b

/-- linkRefToResource(ref, relationship, target): a relationship whose
fieldNamePath ends in Refs is treated as an array field — a non-array
value is replaced by [ref], a present ref is left alone, a new ref is
appended; otherwise the scalar field is overwritten.  The code also
stamps relationship.array onto the shared descriptor entry, which no
modelled claim observes.  A non-primitive ref value cannot be pushed in
the one-level value model and is reported as a model limitation (refs
are strings in every modelled scenario). -/
def linkRefToResource (ref : JsVal) (relationship : Relationship) (target : Obj) :
    Except String Obj :=
  match relationship.fieldNamePath with
  | none => .error "TypeError"
  | some fnp =>
    if strEndsWith fnp "Refs" then
      match target.getV fnp with
      | .arr l =>
        match ref with
        | .prim p =>
          if l.any (fun x => x.seq p) then .ok target
          else .ok (target.setV fnp (.arr (l ++ [p])))
        | _ => .error "ModelLimitation: non-primitive ref value"
      | _ =>
        match ref with
        | .prim p => .ok (target.setV fnp (.arr [p]))
        | _ => .error "ModelLimitation: non-primitive ref value"
    else .ok (target.setV fnp ref)

/-- linkResource(resource, as): resolve the relationship; a direct
relationship writes the target's ref onto this Resource; an indirect one
writes this Resource's ref onto the target (via the target's own
relationship lookup) and records the updated target's data in the
pending indirect-link list; any other relationship type does nothing.
The result pairs the updated `this` with the updated target when the
target was written. -/
def ResourceM.linkResource (a : ResourceM) (b : ResourceM) (asName : Option String) :
    Except String (ResourceM × Option ResourceM) :=
  match a.getRelationshipFor (ResourceM.linkArg b asName) with
  | .error e => .error e
  | .ok rel =>
    if rel.relType = some "direct" then
      match linkRefToResource (b.props.getV "ref") rel a.props with
      | .error e => .error e
      | .ok props2 => .ok ({ a with props := props2 }, none)
    else if rel.relType = some "indirect" then
      match b.getRelationshipFor (ResourceM.linkArg a asName) with
      | .error e => .error e
      | .ok relB =>
        match linkRefToResource (a.props.getV "ref") relB b.props with
        | .error e => .error e
        | .ok bprops2 =>
          .ok ({ a with indirect := a.indirect ++ [bprops2] },
               some { b with props := bprops2 })
    else .ok (a, none)

/-- link(resource) for a single (non-iterable) Resource argument
delegates to linkResource; applying it twice with the same argument. -/
def ResourceM.linkTwice (a b : ResourceM) (asName : Option String) :
    Except String (ResourceM × Option ResourceM) :=
  match a.linkResource b asName with
  | .error e => .error e
  | .ok (a1, _) => a1.linkResource b asName

/-- The number of occurrences of a primitive in an array-valued field
(0 for any non-array value). -/
def countPrim (v : JsVal) (p : JsPrim) : Nat :=
  match v with
  | .arr l => l.countP (fun x => x.seq p)
  | _ => 0

/-- C2 counterexample input: an Entity without an owning Collection
Endpoint carrying a stale validation error. -/
def unboundResource : ResourceM :=
  { rawData := [("title", vStr "x")], props := [("title", vStr "x")],
    linked := none, endpoint := none, indirect := [],
    errors := [{ code := 2, field := "title", message := "title is required",
                 typeInfo := none, valid := false }] }

/-- C2 counterexample: on an Entity with no owning Collection Endpoint,
validate() does not reject with the no-resourceful-endpoint sentinel and
does not leave the state unchanged: it clears the errors list and then
throws a TypeError (Object.keys of the null getResourceFields result). -/
theorem validate_unbound_counterexample :
    (ResourceM.validate (fun _ _ => false) unboundResource).1 = .thrown "TypeError" ∧
    (ResourceM.validate (fun _ _ => false) unboundResource).1
      ≠ .rejected ∧
    (ResourceM.validate (fun _ _ => false) unboundResource).2 ≠ unboundResource := by
  refine ⟨by decide, by decide, by decide⟩

/-- C2 (amended): for every Entity with no owning Collection Endpoint,
save() and destroy() reject with the fixed no-resourceful-endpoint
sentinel and leave the Entity state unchanged; validate(), however, first
resets the errors list and then throws a TypeError instead of rejecting
with the sentinel. -/
theorem resource_ops_unbound_amended (rt : Option String → String → Bool)
    (r : ResourceM) (h : r.endpoint = none) :
    ResourceM.save r = (.rejected NO_RESOURCEFUL_ENDPOINT_ERROR_RESOURCE, r) ∧
    ResourceM.destroy r = (.rejected NO_RESOURCEFUL_ENDPOINT_ERROR_RESOURCE, r) ∧
    ResourceM.validate rt r = (.thrown "TypeError", { r with errors := [] }) := by
  refine ⟨?_, ?_, ?_⟩ <;>
    simp [ResourceM.save, ResourceM.destroy, ResourceM.validate,
          ResourceM.getResourceFields, h]

/-- Witness for resource_ops_unbound_amended at the concrete unbound
Entity. -/
theorem resource_ops_unbound_amended_witness :
    ResourceM.save unboundResource
      = (.rejected NO_RESOURCEFUL_ENDPOINT_ERROR_RESOURCE, unboundResource) ∧
    ResourceM.destroy unboundResource
      = (.rejected NO_RESOURCEFUL_ENDPOINT_ERROR_RESOURCE, unboundResource) ∧
    ResourceM.validate (fun _ _ => false) unboundResource
      = (.thrown "TypeError", { unboundResource with errors := [] }) :=
  resource_ops_unbound_amended (fun _ _ => false) unboundResource rfl

/-- C7: for a descriptor-bound Entity and a descriptor field f, the
priority order of validateField gives: an unset (undefined or null)
required field reports REQUIRED_FIELD (code 2, invalid); a set value on
a readOnly field reports NONE (code 0, valid) whatever the field's
pattern or allowed-value mapping would say. -/
theorem validateField_priority (rt : Option String → String → Bool)
    (r : ResourceM) (f : String) (fds : List (String × FieldDescr)) (cf : FieldDescr)
    (hfds : r.getResourceFields = some fds)
    (hf : alist.get fds f = some cf) :
    ((r.props.getV f = vUndefined ∨ r.props.getV f = vNull) → cf.required = true →
      ResourceM.validateField rt r f
        = .ok { code := 2, field := f, message := f ++ " is required",
                typeInfo := cf.typeInfo, valid := false }) ∧
    (r.props.getV f ≠ vUndefined → r.props.getV f ≠ vNull → cf.readOnly = true →
      ResourceM.validateField rt r f
        = .ok { code := 0, field := f, message := "",
                typeInfo := cf.typeInfo, valid := true }) := by
  constructor
  · intro hv hreq
    rcases hv with hv | hv <;>
      simp [ResourceM.validateField, hfds, hf, validateFieldCore, hv, hreq]
  · intro h1 h2 hro
    simp [ResourceM.validateField, hfds, hf, validateFieldCore, h1, h2, hro]

/-- A descriptor for the validateField witness: field a is required,
field b is readOnly with a pattern. -/
def roDescriptor : Resourceful :=
  { pluralName := "contents", singularName := "content",
    fields := some [("a", { required := true }),
                    ("b", { readOnly := true,
                            typeInfo := some { pattern := some "^x$" } })] }

/-- An Entity bound to roDescriptor with a unset and b set to a value
that fails the pattern. -/
def roResource : ResourceM := ResourceM.new [("b", vStr "nomatch")] (some roDescriptor)

/-- Witness for validateField_priority: with a host regex stub that
rejects everything, the unset required field a reports REQUIRED_FIELD and
the set readOnly field b still reports NONE. -/
theorem validateField_priority_witness :
    ResourceM.validateField (fun _ _ => false) roResource "a"
      = .ok { code := 2, field := "a", message := "a is required",
              typeInfo := none, valid := false } ∧
    ResourceM.validateField (fun _ _ => false) roResource "b"
      = .ok { code := 0, field := "b", message := "",
              typeInfo := some { pattern := some "^x$" }, valid := true } := by
  constructor
  · exact (validateField_priority (fun _ _ => false) roResource "a" _ _ rfl rfl).1
      (Or.inl (by decide)) rfl
  · exact (validateField_priority (fun _ _ => false) roResource "b" _ _ rfl rfl).2
      (by decide) (by decide) rfl

theorem getV_setV (o : Obj) (k : String) (v : JsVal) : (o.setV k v).getV k = v := by
  induction o with
  | nil => simp [Obj.setV, Obj.getV, List.find?_cons]
  | cons kv rest ih =>
    obtain ⟨k0, v0⟩ := kv
    by_cases hk : k0 = k
    · simp [Obj.setV, hk, Obj.getV, List.find?_cons]
    · simpa [Obj.setV, hk, Obj.getV, List.find?_cons] using ih

theorem getRelationshipFor_congr (a a' : ResourceM) (arg : Sum String ResourceM)
    (h : a.endpoint = a'.endpoint) :
    a.getRelationshipFor arg = a'.getRelationshipFor arg := by
  cases arg <;> simp only [ResourceM.getRelationshipFor, h]

/-- C9 (amended): for Entities A and B whose resolved relationship is
direct with an array-typed field path (ending in Refs) and whose target
ref is a primitive, linking twice equals linking once (the second link
resolves the same relationship and is a deduplicating no-op), the
relationship write never touches the target, and when A's array field
held at most one occurrence of B's ref beforehand (in particular when it
was absent or not an array), the field afterwards holds exactly one
occurrence. -/
theorem link_direct_array_amended (a b : ResourceM) (asName : Option String)
    (rel : Relationship) (fnp : String) (refv : JsPrim)
    (hres : a.getRelationshipFor (ResourceM.linkArg b asName) = .ok rel)
    (hdir : rel.relType = some "direct")
    (hfnp : rel.fieldNamePath = some fnp)
    (harr : strEndsWith fnp "Refs" = true)
    (href : b.props.getV "ref" = .prim refv) :
    ResourceM.linkTwice a b asName = a.linkResource b asName ∧
    (∀ a1 o, a.linkResource b asName = .ok (a1, o) →
      o = none ∧
      (countPrim (a.props.getV fnp) refv ≤ 1 → countPrim (a1.props.getV fnp) refv = 1)) := by
  have hself : ∀ p : JsPrim, p.seq p = true := by
    intro p
    cases p <;> simp [JsPrim.seq]
  have hstepP : ∀ props0 : Obj,
      ResourceM.linkResource { a with props := props0 } b asName
        = (linkRefToResource (JsVal.prim refv) rel props0).map
            (fun props2 => ({ a with props := props2 }, none)) := by
    intro props0
    rw [ResourceM.linkResource,
        getRelationshipFor_congr { a with props := props0 } a _ rfl, hres]
    simp only [hdir, if_pos rfl, href]
    cases linkRefToResource (JsVal.prim refv) rel props0 <;> rfl
  have hbase : a.linkResource b asName
      = (linkRefToResource (JsVal.prim refv) rel a.props).map
          (fun props2 => ({ a with props := props2 }, none)) := hstepP a.props
  rcases hv : a.props.getV fnp with p | l | m
  case arr =>
    by_cases hmem : l.any (fun x => x.seq refv)
    · have hone : a.linkResource b asName = .ok (a, none) := by
        rw [hbase, linkRefToResource, hfnp]
        simp [harr, hv, hmem, Except.map]
      constructor
      · simp only [ResourceM.linkTwice, hone]
      · intro a1 o h1
        rw [hone] at h1
        injection h1 with h1
        injection h1 with h1a h1o
        subst h1a
        refine ⟨h1o.symm, ?_⟩
        intro hle
        have hpos : 0 < l.countP (fun x => x.seq refv) := by
          rw [List.countP_pos_iff]
          simpa using List.any_eq_true.mp hmem
        simp only [countPrim, hv] at hle ⊢
        omega
    · have hone : a.linkResource b asName
          = .ok ({ a with props := a.props.setV fnp (.arr (l ++ [refv])) }, none) := by
        rw [hbase, linkRefToResource, hfnp]
        simp [harr, hv, hmem, Except.map]
      have hget1 : ({ a with props := a.props.setV fnp (.arr (l ++ [refv])) }
          : ResourceM).props.getV fnp = .arr (l ++ [refv]) := getV_setV _ _ _
      have hmem2 : (l ++ [refv]).any (fun x => x.seq refv) = true := by
        rw [List.any_eq_true]
        exact ⟨refv, by simp, hself refv⟩
      have htwo : ResourceM.linkResource
            { a with props := a.props.setV fnp (.arr (l ++ [refv])) } b asName
          = .ok ({ a with props := a.props.setV fnp (.arr (l ++ [refv])) }, none) := by
        rw [hstepP (a.props.setV fnp (.arr (l ++ [refv]))), linkRefToResource, hfnp]
        simp [harr, hget1, hmem2, Except.map]
      constructor
      · simp only [ResourceM.linkTwice, hone, htwo]
      · intro a1 o h1
        rw [hone] at h1
        injection h1 with h1
        injection h1 with h1a h1o
        subst h1a
        refine ⟨h1o.symm, ?_⟩
        intro _
        have hzero : l.countP (fun x => x.seq refv) = 0 := by
          rw [List.countP_eq_zero]
          intro x hx hseq
          exact hmem (List.any_eq_true.mpr ⟨x, hx, hseq⟩)
        have hone2 : ([refv] : List JsPrim).countP (fun x => x.seq refv) = 1 := by
          simp [hself refv]
        simp only [countPrim, hget1, List.countP_append, hzero, hone2]
  all_goals {
    have hone : a.linkResource b asName
        = .ok ({ a with props := a.props.setV fnp (.arr [refv]) }, none) := by
      rw [hbase, linkRefToResource, hfnp]
      simp [harr, hv, Except.map]
    have hget1 : ({ a with props := a.props.setV fnp (.arr [refv]) }
        : ResourceM).props.getV fnp = .arr [refv] := getV_setV _ _ _
    have hmem2 : ([refv] : List JsPrim).any (fun x => x.seq refv) = true := by
      simp [hself refv]
    have htwo : ResourceM.linkResource
          { a with props := a.props.setV fnp (.arr [refv]) } b asName
        = .ok ({ a with props := a.props.setV fnp (.arr [refv]) }, none) := by
      rw [hstepP (a.props.setV fnp (.arr [refv])), linkRefToResource, hfnp]
      simp [harr, hget1, hmem2, Except.map]
    constructor
    · simp only [ResourceM.linkTwice, hone, htwo]
    · intro a1 o h1
      rw [hone] at h1
      injection h1 with h1
      injection h1 with h1a h1o
      subst h1a
      refine ⟨h1o.symm, ?_⟩
      intro _
      have hone2 : ([refv] : List JsPrim).countP (fun x => x.seq refv) = 1 := by
        simp [hself refv]
      simp only [countPrim, hget1, hone2]
  }

/-- A descriptor with a direct, array-typed relationship to things. -/
def widgetDescriptor : Resourceful :=
  { pluralName := "widgets", singularName := "widget",
    relationships := some [("things",
      { relType := some "direct", resourceType := some "things",
        fieldNamePath := some "thingRefs" })] }

/-- The descriptor of the link target. -/
def thingDescriptor : Resourceful :=
  { pluralName := "things", singularName := "thing" }

/-- A widget Entity with no thingRefs yet. -/
def aWidget : ResourceM := ResourceM.new [("ref", vStr "o:a")] (some widgetDescriptor)

/-- A thing Entity to link. -/
def bThing : ResourceM := ResourceM.new [("ref", vStr "o:b")] (some thingDescriptor)

/-- The widget after the link: thingRefs holds exactly the linked ref. -/
def linkedWidget : ResourceM :=
  { aWidget with props := aWidget.props.setV "thingRefs" (.arr [.str "o:b"]) }

/-- Witness for link_direct_array_amended at the concrete widget/thing
pair: linking twice equals linking once, the link sets thingRefs to the
single ref, and the occurrence count is one. -/
theorem link_direct_array_amended_witness :
    ResourceM.linkTwice aWidget bThing none = ResourceM.linkResource aWidget bThing none ∧
    ResourceM.linkResource aWidget bThing none = .ok (linkedWidget, none) ∧
    countPrim (linkedWidget.props.getV "thingRefs") (.str "o:b") = 1 := by
  have h := link_direct_array_amended aWidget bThing none
    { relType := some "direct", resourceType := some "things",
      fieldNamePath := some "thingRefs" } "thingRefs" (.str "o:b")
    (by decide) rfl rfl (by decide) (by decide)
  have h1 : ResourceM.linkResource aWidget bThing none = .ok (linkedWidget, none) := by
    decide
  exact ⟨h.1, h1, (h.2 linkedWidget none h1).2 (by decide)⟩

/-- A widget Entity whose thingRefs array already holds the ref twice
(for example assembled from raw data). -/
def dupWidget : ResourceM :=
  ResourceM.new [("ref", vStr "o:a"),
                 ("thingRefs", JsVal.arr [.str "o:b", .str "o:b"])]
    (some widgetDescriptor)

/-- C9 counterexample: linking the same thing twice onto a widget whose
array field already held its ref twice leaves two occurrences, not
exactly one — both links are no-ops and never deduplicate pre-existing
duplicates. -/
theorem link_duplicate_counterexample :
    ResourceM.linkTwice dupWidget bThing none = .ok (dupWidget, none) ∧
    countPrim (dupWidget.props.getV "thingRefs") (.str "o:b") = 2 := by
  refine ⟨by decide, by decide⟩

/-!  ResourceCollection (lib/resource_collection.js)  -/

/-- The sentinel rejection value exported by lib/resource_collection.js. -/
def NO_RESOURCEFUL_ENDPOINT_ERROR_COLLECTION : String :=
  "\nNo resourceful endpoint tied to this resource collection.\nYou should use resourcefulEndpoint.browse(),\nor supply a ResourcefulEndpoint instance when creating this collection.\n"

/-- The "No next page" pagination signal. -/
def NO_NEXT_PAGE_ERROR : String := "No next page"

/-- The "No previous page" pagination signal. -/
def NO_PREVIOUS_PAGE_ERROR : String := "No previous page"

/-- The meta section of a raw Sequoia payload. -/
structure PageMeta where
  page : Option Nat := none
  perPage : Option Nat := none
  totalCount : Option Nat := none
  next : Option String := none
  prev : Option String := none
  first : Option String := none
  last : Option String := none
deriving DecidableEq, Repr

/-- A raw payload as consumed by ResourceCollection: the only top-level
array the modelled code reads is the one under the endpoint's pluralName
key, modelled directly as items; linked is the shared side-map; meta the
pagination section. -/
structure RawData where
  items : Option (List Obj) := none
  linked : Option (List (String × List Obj)) := none
  meta : Option PageMeta := none
deriving DecidableEq, Repr

/-- The filter callback of setData, translated from the source: a truthy
`<singularName>Ref` field keeps the item iff it strictly equals the
entity ref; otherwise the relationship (or an empty object) is read from
the descriptor, an absent or falsy through keeps the item; a truthy
through destructures fieldNamePath from `relationships[through]`
(throwing a TypeError when that entry is missing), reads the entity's
through field (an absent fieldNamePath reads the literal "undefined"
key), defaults a falsy value to [] and calls .some on it (throwing when
the value is truthy but not an array), comparing each element against
the item's value at the configured filter field path (an unconfigured
filter chain again reads the literal "undefined" key). -/
def keepLinkedItem (rf : Resourceful) (resProps : Obj) (link : String) (item : Obj) :
    Except String Bool :=
  let v := item.getV (rf.singularName ++ "Ref")
  if v.truthy then .ok (v.seq (resProps.getV "ref"))
  else
    match rf.relationships with
    | none => .ok true
    | some rels =>
      let relationship := (alist.get rels link).getD {}
      match relationship.through with
      | none => .ok true
      | some t =>
        if t = "" then .ok true
        else
          match alist.get rels t with
          | none => .error "TypeError"
          | some threl =>
            let tfv := resProps.getV (threl.fieldNamePath.getD "undefined")
            let filteredFieldNamePath : Option String :=
              match rf.filters with
              | none => none
              | some fs =>
                match alist.get fs (relationship.filterName.getD "undefined") with
                | none => none
                | some fd => fd.fieldNamePath
            let itemVal := item.getV (filteredFieldNamePath.getD "undefined")
            match tfv with
            | .arr tf => .ok (tf.any (fun f => JsVal.seq (.prim f) itemVal))
            | .prim p => if p.truthy then .error "TypeError" else .ok false
            | .obj _ => .error "TypeError"

/-- Filter one linked array for one entity (Array.prototype.filter with
the possibly-throwing callback). -/
def filterLinkedM (rf : Resourceful) (resProps : Obj) (link : String) :
    List Obj → Except String (List Obj)
  | [] => .ok []
  | item :: rest =>
    match keepLinkedItem rf resProps link item with
    | .error e => .error e
    | .ok true => (filterLinkedM rf resProps link rest).map (fun r => item :: r)
    | .ok false => filterLinkedM rf resProps link rest

/-- Build the per-entity linked buckets: one filtered bucket per key of
the payload's shared linked map, in key order. -/
def buildLinked (rf : Resourceful) (resProps : Obj) :
    List (String × List Obj) → Except String (List (String × List Obj))
  | [] => .ok []
  | kv :: rest =>
    match filterLinkedM rf resProps kv.1 kv.2 with
    | .error e => .error e
    | .ok farr => (buildLinked rf resProps rest).map (fun r => (kv.1, farr) :: r)

/-- Map a possibly-throwing function over a list, stopping at the first
throw (Array.prototype.map semantics under exceptions). -/
def listMapE {α β : Type} (f : α → Except String β) : List α → Except String (List β)
  | [] => .ok []
  | x :: rest =>
    match f x with
    | .error e => .error e
    | .ok y => (listMapE f rest).map (fun r => y :: r)

/-- Build one Resource from one element of the plural-name array: copy
the content, attach the filtered linked buckets when the payload has a
linked map. -/
def mkResourceFrom (rf : Resourceful) (linked? : Option (List (String × List Obj)))
    (content : Obj) : Except String ResourceM :=
  match linked? with
  | none => .ok (ResourceM.new content (some rf))
  | some lm =>
    (buildLinked rf content lm).map
      (fun built => { ResourceM.new content (some rf) with linked := some built })

/-- setData: without an endpoint or without the plural-name array the
collection stays as constructed (empty); otherwise one Resource per
array element, with linked buckets filtered per entity. -/
def RC.mkResources (endpoint : Option Resourceful) (rd : RawData) :
    Except String (List ResourceM) :=
  match endpoint with
  | none => .ok []
  | some rf =>
    match rd.items with
    | none => .ok []
    | some items => listMapE (mkResourceFrom rf rd.linked) items

/-- The ResourceCollection state. -/
structure RCState where
  rawData : RawData
  collection : List ResourceM := []
  initialCriteria : String := ""
  endpoint : Option Resourceful := none
deriving DecidableEq, Repr

/-- The ResourceCollection constructor (which runs setData). -/
def RCState.new (rawData : RawData) (initialCriteria : String)
    (endpoint : Option Resourceful) : Except String RCState :=
  (RC.mkResources endpoint rawData).map
    (fun coll => { rawData := rawData, collection := coll,
                   initialCriteria := initialCriteria, endpoint := endpoint })

/-- totalCount: the truthy meta.totalCount when present, else the local
collection length. -/
def RCState.totalCount (rc : RCState) : Nat :=
  match rc.rawData.meta with
  | some m =>
    match m.totalCount with
    | some t => if t = 0 then rc.collection.length else t
    | none => rc.collection.length
  | none => rc.collection.length

/-- ResourcefulEndpoint#newResourceCollection with an array argument:
wraps the data under the pluralName key and builds a collection. -/
def Resourceful.newResourceCollection (rf : Resourceful) (data : List Obj) :
    Except String RCState :=
  RCState.new { items := some data, linked := none, meta := none } "" (some rf)

/-- Math.ceil(t / n) over naturals.  A zero batch size produces Infinity
pages and a RangeError in JavaScript; the model is only applied to
positive sizes. -/
def jsCeilDiv (t n : Nat) : Nat := if n = 0 then 0 else (t + n - 1) / n

/-- The body of explode once the batch size is known: ceil(totalCount /
batchSize) new collections, the i-th built from the JSON of the
collection slice [i*batchSize, i*batchSize + batchSize). -/
def RCState.explodeWith (rc : RCState) (batchSize : Nat) : Except String (List RCState) :=
  listMapE
    (fun i =>
      match rc.endpoint with
      | some rf =>
        rf.newResourceCollection
          (((rc.collection.drop (i * batchSize)).take batchSize).map ResourceM.toJSON)
      | none => .error "TypeError")
    (List.range (jsCeilDiv rc.totalCount batchSize))

/-- explode(size): an undefined size defaults to the endpoint's batch
limit (throwing when the collection has no endpoint). -/
def RCState.explode (rc : RCState) (size : Option Nat) : Except String (List RCState) :=
  match size with
  | some s => rc.explodeWith s
  | none =>
    match rc.endpoint with
    | some rf => rc.explodeWith rf.batchSize
    | none => .error "TypeError"

/-- listMapE of a never-throwing function is the plain map. -/
theorem listMapE_ok_of {α β : Type} (f : α → Except String β) (g : α → β) (l : List α)
    (h : ∀ x ∈ l, f x = .ok (g x)) : listMapE f l = .ok (l.map g) := by
  induction l with
  | nil => rfl
  | cons x rest ih =>
    rw [listMapE, h x (by simp), ih (fun y hy => h y (by simp [hy]))]
    rfl

/-- newResourceCollection never throws: with no linked side-map every
element is wrapped into a plain Resource. -/
theorem newResourceCollection_ok (rf : Resourceful) (data : List Obj) :
    rf.newResourceCollection data
      = .ok { rawData := { items := some data, linked := none, meta := none },
              collection := data.map (fun o => ResourceM.new o (some rf)),
              initialCriteria := "", endpoint := some rf } := by
  have h := listMapE_ok_of (mkResourceFrom rf none) (fun o => ResourceM.new o (some rf)) data
    (fun x _ => rfl)
  simp [Resourceful.newResourceCollection, RCState.new, RC.mkResources, h, Except.map]

/-- The slice lengths of ceil(length / n) consecutive n-chunks of a list
sum to the list length. -/
theorem chunk_sum {α : Type} (n : Nat) (hn : 0 < n) :
    ∀ (k : Nat) (l : List α), k = jsCeilDiv l.length n →
    ((List.range k).map (fun i => ((l.drop (i * n)).take n).length)).sum = l.length := by
  have hnne : n ≠ 0 := Nat.pos_iff_ne_zero.mp hn
  intro k
  induction k with
  | zero =>
    intro l hk
    rw [jsCeilDiv, if_neg hnne] at hk
    have h0 : l.length = 0 := by
      by_contra hL
      have h1 : n ≤ l.length + n - 1 := by omega
      have := (Nat.one_le_div_iff hn).mpr h1
      omega
    simp [h0]
  | succ k ih =>
    intro l hk
    have hk0 := hk
    rw [jsCeilDiv, if_neg hnne] at hk0
    have hL : 1 ≤ l.length := by
      by_contra h
      have hl0 : l.length = 0 := by omega
      rw [hl0] at hk0
      have : (0 + n - 1) / n = 0 := Nat.div_eq_of_lt (by omega)
      omega
    have hk2 : k = (l.length - 1) / n := by
      have e1 : l.length + n - 1 = (l.length - 1) + n := by omega
      rw [e1, Nat.add_div_right _ hn] at hk0
      omega
    have hstep : k = jsCeilDiv (l.drop n).length n := by
      rw [List.length_drop, jsCeilDiv, if_neg hnne]
      by_cases hc : l.length ≤ n
      · have h1 : l.length - n = 0 := by omega
        rw [h1]
        have h2 : (0 + n - 1) / n = 0 := Nat.div_eq_of_lt (by omega)
        rw [h2, hk2, Nat.div_eq_of_lt (by omega)]
      · have e2 : l.length - n + n - 1 = (l.length - 1 - n) + n := by omega
        rw [e2, Nat.add_div_right _ hn, hk2]
        have e3 : l.length - 1 = (l.length - 1 - n) + n := by omega
        conv_lhs => rw [e3, Nat.add_div_right _ hn]
    rw [List.range_succ_eq_map]
    simp only [List.map_cons, List.map_map, List.sum_cons, Nat.zero_mul, List.drop_zero]
    have hcomp : ((List.range k).map ((fun i => ((l.drop (i * n)).take n).length) ∘ Nat.succ))
        = (List.range k).map (fun i => (((l.drop n).drop (i * n)).take n).length) := by
      apply List.map_congr_left
      intro i _
      simp only [Function.comp]
      rw [List.drop_drop]
      have he : Nat.succ i * n = n + i * n := by
        rw [Nat.succ_mul]
        omega
      rw [he]
    rw [hcomp, ih (l.drop n) hstep]
    simp only [List.length_take, List.length_drop]
    omega

/-- C1 (amended): explode(n) over an endpoint-bound Entity Set returns
exactly ceil(T / n) new Entity Sets where T is totalCount — the truthy
meta.totalCount of the raw payload when present, else the local
collection size N — in order, the i-th holding the JSON of entities
i*n .. i*n+n-1 of the original collection; every set holds at most n
entities; when T = N (in particular whenever the payload carries no
totalCount) the sizes sum to N, so the original claim holds exactly in
that case; an omitted batch size defaults to the endpoint batch limit. -/
theorem explode_amended (rc : RCState) (rf : Resourceful) (n : Nat)
    (hend : rc.endpoint = some rf) (hn : 0 < n) :
    RCState.explode rc none = RCState.explode rc (some rf.batchSize) ∧
    RCState.explode rc (some n)
      = .ok ((List.range (jsCeilDiv rc.totalCount n)).map (fun i =>
          { rawData := { items := some (((rc.collection.drop (i * n)).take n).map ResourceM.toJSON),
                         linked := none, meta := none },
            collection := (((rc.collection.drop (i * n)).take n).map ResourceM.toJSON).map
              (fun o => ResourceM.new o (some rf)),
            initialCriteria := "", endpoint := some rf })) ∧
    (List.range (jsCeilDiv rc.totalCount n)).length = jsCeilDiv rc.totalCount n ∧
    (∀ i, (((rc.collection.drop (i * n)).take n).map ResourceM.toJSON).length ≤ n) ∧
    (rc.totalCount = rc.collection.length →
      ((List.range (jsCeilDiv rc.totalCount n)).map
        (fun i => (((rc.collection.drop (i * n)).take n).map ResourceM.toJSON).length)).sum
        = rc.collection.length) := by
  refine ⟨?_, ?_, List.length_range _, ?_, ?_⟩
  · simp only [RCState.explode, hend]
  · rw [RCState.explode, RCState.explodeWith]
    apply listMapE_ok_of
    intro i _
    rw [hend]
    exact newResourceCollection_ok rf _
  · intro i
    simp only [List.length_map, List.length_take]
    exact min_le_left _ _
  · intro htc
    have h := chunk_sum n hn (jsCeilDiv rc.totalCount n) rc.collection (by rw [htc])
    simpa [List.length_map] using h

/-- A minimal descriptor for the explode scenarios. -/
def oneRf : Resourceful := { pluralName := "ones", singularName := "one" }

/-- An Entity Set whose payload reports meta.totalCount = 3 while the
local collection holds a single entity (a browsed partial page). -/
def threeCountCollection : RCState :=
  { rawData := { items := some [[("t", vStr "v")]], linked := none,
                 meta := some { totalCount := some 3 } },
    collection := [ResourceM.new [("t", vStr "v")] (some oneRf)],
    initialCriteria := "", endpoint := some oneRf }

/-- C1 counterexample: on a collection of local size 1 whose payload
reports totalCount 3, explode(1) returns 3 Entity Sets, not
ceil(1/1) = 1. -/
theorem explode_totalCount_counterexample :
    (RCState.explode threeCountCollection (some 1)).map List.length = .ok 3 ∧
    threeCountCollection.collection.length = 1 ∧
    jsCeilDiv threeCountCollection.collection.length 1 = 1 ∧
    (3 : Nat) ≠ 1 := by
  refine ⟨by decide, by decide, by decide, by decide⟩

/-- Five entities for the explode witness. -/
def fiveItems : List Obj :=
  [[("ref", vStr "r:1")], [("ref", vStr "r:2")], [("ref", vStr "r:3")],
   [("ref", vStr "r:4")], [("ref", vStr "r:5")]]

/-- A five-entity Entity Set with no server meta (totalCount falls back
to the collection length). -/
def fiveCollection : RCState :=
  { rawData := { items := some fiveItems, linked := none, meta := none },
    collection := fiveItems.map (fun o => ResourceM.new o (some oneRf)),
    initialCriteria := "", endpoint := some oneRf }

/-- Witness for explode_amended: exploding five entities at batch size 2
gives sets of sizes [2, 2, 1] summing to 5. -/
theorem explode_amended_witness :
    ((List.range (jsCeilDiv fiveCollection.totalCount 2)).map
      (fun i => (((fiveCollection.collection.drop (i * 2)).take 2).map ResourceM.toJSON).length)).sum
      = fiveCollection.collection.length ∧
    (RCState.explode fiveCollection (some 2)).map (fun l => l.map (fun s => s.collection.length))
      = .ok [2, 2, 1] := by
  constructor
  · exact (explode_amended fiveCollection oneRf 2 rfl (by decide)).2.2.2.2 (by decide)
  · decide

/-- The through-case decision of the linked-filter rule, stated from the
claim: with no truthy through configured the item is kept; otherwise the
item is kept iff some value of the entity through-relationship field
array equals the item value at the relationship filter fieldNamePath
(unconfigured descriptor paths fall back to the literal "undefined" key,
as JavaScript property access does). -/
def keepSpecThrough (rf : Resourceful) (resProps : Obj) (link : String) (item : Obj) : Bool :=
  let rel := (rf.relationships.bind (fun rels => alist.get rels link)).getD {}
  match rel.through with
  | none => true
  | some t =>
    if t = "" then true
    else
      let x := ((rf.relationships.bind (fun rels => alist.get rels t)).getD
        ({} : Relationship)).fieldNamePath.getD "undefined"
      let throughVals : List JsPrim :=
        match resProps.getV x with
        | .arr l => l
        | _ => []
      let fp := ((rf.filters.bind (fun fs =>
        alist.get fs (rel.filterName.getD "undefined"))).bind FilterDef.fieldNamePath).getD "undefined"
      throughVals.any (fun f => JsVal.seq (.prim f) (item.getV fp))

/-- The claim's per-item filter rule, amended: an item whose
`<singularName>Ref` field holds a truthy value is kept iff that value
strictly equals the entity ref; any other item falls through to the
through-case rule. -/
def keepSpecLinked (rf : Resourceful) (resProps : Obj) (link : String) (item : Obj) : Bool :=
  let v := item.getV (rf.singularName ++ "Ref")
  if v.truthy then v.seq (resProps.getV "ref")
  else keepSpecThrough rf resProps link item

/-- The claim's per-item filter rule exactly as stated: keyed on the
presence of the `<singularName>Ref` field rather than on its
truthiness. -/
def keepClaimOriginal (rf : Resourceful) (resProps : Obj) (link : String) (item : Obj) : Bool :=
  match alist.get item (rf.singularName ++ "Ref") with
  | some v => v.seq (resProps.getV "ref")
  | none => keepSpecThrough rf resProps link item

/-- Well-formedness of one (entity, relationship) pair for the linked
filter: a truthy through must name an existing relationship, and the
entity's through field must be an array or falsy — otherwise the code
throws a TypeError instead of filtering. -/
def throughOk (rf : Resourceful) (resProps : Obj) (link : String) : Bool :=
  match rf.relationships with
  | none => true
  | some rels =>
    match ((alist.get rels link).getD {}).through with
    | none => true
    | some t =>
      if t = "" then true
      else
        match alist.get rels t with
        | none => false
        | some threl =>
          match resProps.getV (threl.fieldNamePath.getD "undefined") with
          | .arr _ => true
          | .prim p => !p.truthy
          | .obj _ => false

/-- Under throughOk, the code's filter callback refines the claim's
(amended) rule. -/
theorem keepLinkedItem_eq_spec (rf : Resourceful) (resProps : Obj) (link : String)
    (item : Obj) (h : throughOk rf resProps link = true) :
    keepLinkedItem rf resProps link item = .ok (keepSpecLinked rf resProps link item) := by
  rw [keepLinkedItem, keepSpecLinked]
  by_cases hv : (item.getV (rf.singularName ++ "Ref")).truthy
  · simp [hv]
  · simp only [hv, if_neg, Bool.false_eq_true, if_false]
    rw [keepSpecThrough]
    rcases hrels : rf.relationships with _ | rels
    · simp [hrels]
    · simp only [throughOk, hrels] at h
      simp only [hrels, Option.some_bind]
      rcases hth : ((alist.get rels link).getD {}).through with _ | t
    
      · simp [hth]
      · simp only [hth] at h
        by_cases ht0 : t = ""
        · simp [hth, ht0]
        · simp only [hth, ht0, if_neg, if_false]
          rcases hlook : alist.get rels t with _ | threl
          · simp only [ht0, if_false, hlook] at h
            exact absurd h (by simp)
          · simp only [ht0, if_false, hlook] at h
            simp only [hlook, Option.getD_some]
            rcases htf : resProps.getV (threl.fieldNamePath.getD "undefined") with p | l | m
            · simp only [htf] at h
              simp only [htf]
              cases p <;> simp_all [JsPrim.truthy, JsVal.truthy]
            · simp only [htf]
              rcases hfil : rf.filters with _ | fs
              · simp
              · simp only [Option.some_bind]
                rcases hfd : alist.get fs (((alist.get rels link).getD
                    ({} : Relationship)).filterName.getD "undefined") with _ | fd
                · simp
                · simp
            · simp only [htf] at h
              exact absurd h (by simp)

/-- Under throughOk, filtering one linked array equals the plain filter
by the spec rule, preserving order. -/
theorem filterLinkedM_eq (rf : Resourceful) (resProps : Obj) (link : String)
    (arr : List Obj) (h : throughOk rf resProps link = true) :
    filterLinkedM rf resProps link arr
      = .ok (arr.filter (keepSpecLinked rf resProps link)) := by
  induction arr with
  | nil => rfl
  | cons item rest ih =>
    rw [filterLinkedM, keepLinkedItem_eq_spec rf resProps link item h]
    by_cases hk : keepSpecLinked rf resProps link item <;>
      simp [hk, ih, List.filter_cons, Except.map]

/-- Under throughOk for every linked key, the per-entity linked buckets
are the key-wise filters of the shared arrays, in key order. -/
theorem buildLinked_eq (rf : Resourceful) (resProps : Obj)
    (lm : List (String × List Obj))
    (h : ∀ kv ∈ lm, throughOk rf resProps kv.1 = true) :
    buildLinked rf resProps lm
      = .ok (lm.map (fun kv => (kv.1, kv.2.filter (keepSpecLinked rf resProps kv.1)))) := by
  induction lm with
  | nil => rfl
  | cons kv rest ih =>
    rw [buildLinked, filterLinkedM_eq rf resProps kv.1 kv.2 (h kv (by simp))]
    rw [ih (fun kv2 h2 => h kv2 (by simp [h2]))]
    rfl

/-- C3 (amended): for every raw payload with an array under the
endpoint's plural-name key and a linked side-map, and every entity and
linked relationship passing throughOk (the code throws a TypeError
otherwise), setData builds one Entity per array element in order, and
populates each Entity's linked[relationship] with exactly the items of
the shared linked array, in order, that satisfy: a truthy
`<singularName>Ref` field is kept iff it equals the Entity ref;
otherwise, with no truthy through configured the item is kept
unconditionally; otherwise the item is kept iff some value in the
Entity's through-relationship field array equals the item's value at
the relationship filter's fieldNamePath. -/
theorem setData_linked_filter_amended (rf : Resourceful) (rd : RawData)
    (items : List Obj) (lm : List (String × List Obj))
    (hi : rd.items = some items) (hl : rd.linked = some lm)
    (hwf : ∀ content ∈ items, ∀ kv ∈ lm, throughOk rf content kv.1 = true) :
    RC.mkResources (some rf) rd
      = .ok (items.map (fun content =>
          { ResourceM.new content (some rf) with
            linked := some (lm.map (fun kv =>
              (kv.1, kv.2.filter (keepSpecLinked rf content kv.1)))) })) := by
  rw [RC.mkResources]
  simp only [hi, hl]
  apply listMapE_ok_of
  intro content hc
  rw [mkResourceFrom]
  simp only [hl]
  rw [buildLinked_eq rf content lm (hwf content hc)]
  rfl

/-- A descriptor with a through relationship (assets through
collections) for the setData witness. -/
def cRf : Resourceful :=
  { pluralName := "contents", singularName := "content",
    relationships := some [
      ("assets", { relType := some "indirect", resourceType := some "assets",
                   through := some "collections", filterName := some "assetFilter" }),
      ("collections", { relType := some "direct", resourceType := some "collections",
                        fieldNamePath := some "collectionRefs" })],
    filters := some [("assetFilter", { fieldNamePath := some "collectionRef" })] }

/-- The witness entity: ref t:1 holding collectionRefs [c:1]. -/
def cItem : Obj := [("ref", vStr "t:1"), ("collectionRefs", JsVal.arr [.str "c:1"])]

/-- The witness payload: one entity, three shared linked assets of which
two correlate (one via the through hop, one via a direct back
reference). -/
def cRd : RawData :=
  { items := some [cItem],
    linked := some [("assets",
      [[("collectionRef", vStr "c:1"), ("name", vStr "keep")],
       [("collectionRef", vStr "c:2"), ("name", vStr "drop")],
       [("contentRef", vStr "t:1"), ("name", vStr "direct")]])],
    meta := none }

/-- Witness for setData_linked_filter_amended: the correlated items are
kept in order, the non-correlated one is dropped. -/
theorem setData_linked_filter_amended_witness :
    RC.mkResources (some cRf) cRd
      = .ok [{ ResourceM.new cItem (some cRf) with
               linked := some [("assets",
                 [[("collectionRef", vStr "c:1"), ("name", vStr "keep")],
                  [("contentRef", vStr "t:1"), ("name", vStr "direct")]])] }] := by
  have h := setData_linked_filter_amended cRf cRd [cItem]
    [("assets",
      [[("collectionRef", vStr "c:1"), ("name", vStr "keep")],
       [("collectionRef", vStr "c:2"), ("name", vStr "drop")],
       [("contentRef", vStr "t:1"), ("name", vStr "direct")]])]
    rfl rfl (by decide)
  rw [h]
  decide

/-- A descriptor with no relationships for the setData counterexample. -/
def noRelRf : Resourceful := { pluralName := "contents", singularName := "content" }

/-- A payload whose linked item carries the contentRef key with an empty
(falsy) string value. -/
def emptyRefRd : RawData :=
  { items := some [[("ref", vStr "a:1")]],
    linked := some [("customers", [[("contentRef", vStr "")]])],
    meta := none }

/-- C3 counterexample: the linked item carries a field named contentRef
(present, value "") that does not equal the entity ref a:1, so the claim
as stated drops it; the code checks truthiness, falls through to the
no-through case and keeps it. -/
theorem setData_truthy_counterexample :
    RC.mkResources (some noRelRf) emptyRefRd
      = .ok [{ ResourceM.new [("ref", vStr "a:1")] (some noRelRf) with
               linked := some [("customers", [[("contentRef", vStr "")]])] }] ∧
    keepClaimOriginal noRelRf [("ref", vStr "a:1")] "customers" [("contentRef", vStr "")]
      = false ∧
    alist.get [("contentRef", vStr "")] (noRelRf.singularName ++ "Ref") = some (vStr "") := by
  refine ⟨by decide, by decide, by decide⟩

/-!  ResourcefulEndpoint (lib/resourceful_endpoint.js)  -/

/-- The criteria argument accepted throughout the endpoint API: absent,
a plain query-string fragment, or a Query object. -/
inductive CriteriaM where
  | nullish : CriteriaM
  | str : String → CriteriaM
  | qry : QueryState → CriteriaM
deriving DecidableEq, Repr

/-- getRelatedThroughFields(criteria): falsy criteria and criteria
without a truthy query property are returned untouched.  Otherwise the
query is split on `&`; the first fragment starting with `include=` is
looked up with Array.prototype.find and immediately has .replace called
on it, so a query with no such fragment throws a TypeError; reading the
relationships map of a descriptor without one also throws.  Includes
naming a relationship with a truthy through contribute that through
target's truthy fieldNamePath; with no contributions the criteria object
is returned with its query untouched; otherwise the fields fragment is
rewritten in place (keeping its `fields=` prefix as the first list
element, exactly as the code does) or appended. -/
def RE.getRelatedThroughFields (rf : Resourceful) :
    CriteriaM → Except String CriteriaM
  | .nullish => .ok .nullish
  | .str s => .ok (.str s)
  | .qry q =>
    if q.query = "" then .ok (.qry q)
    else
      let params := strSplit q.query '&'
      match params.find? (fun p => strStartsWith p "include=") with
      | none => .error "TypeError"
      | some incFrag =>
        let includes := strSplit (incFrag.drop 8) ','
        let fieldsFrag := (params.find? (fun p => strStartsWith p "fields=")).getD ""
        let fields : List String := if fieldsFrag ≠ "" then strSplit fieldsFrag ',' else []
        match rf.relationships with
        | none => .error "TypeError"
        | some rels =>
          let filteredIncludes := includes.filterMap (fun nm =>
            match ((alist.get rels nm).getD {}).through with
            | none => none
            | some t =>
              if t = "" then none
              else
                match ((alist.get rels t).getD {}).fieldNamePath with
                | some fp => if fp = "" then none else some fp
                | none => none)
          if filteredIncludes.isEmpty then .ok (.qry q)
          else
            let newQuery := strJoin "&" (params.map (fun qi =>
              if strStartsWith qi "fields=" then strJoin "," (fields ++ filteredIncludes)
              else qi))
            let newQuery2 := if strContainsSub newQuery "fields=" then newQuery
              else newQuery ++ "&" ++ ("fields=" ++ strJoin "," filteredIncludes)
            .ok (.qry { q with query := newQuery2 })

/-- criteriaToQuery: `?owner=<tenant>` (an absent tenant renders as the
literal "undefined"), with the criteria appended for a non-empty string
or the rendered query of a Query object. -/
def RE.criteriaToQuery (rf : Resourceful) (criteria : CriteriaM) : String :=
  let base := "?owner=" ++ rf.tenant.getD "undefined"
  match criteria with
  | .nullish => base
  | .str s => if s = "" then base else base ++ "&" ++ s
  | .qry q => base ++ "&" ++ Query.toQueryString q

/-- endPointUrl: location, hyphenated plural name, optional ref segment
and the criteria query. -/
def RE.endPointUrl (rf : Resourceful) (ref? : Option String) (criteria : CriteriaM) :
    String :=
  rf.location.getD "undefined" ++ "/" ++ rf.hyphenatedPluralName.getD "undefined"
    ++ (match ref? with
        | some r => if r = "" then "" else "/" ++ r
        | none => "")
    ++ RE.criteriaToQuery rf criteria

/-- The criteria string stored as initialCriteria (a Query object stores
its accumulated query; its only later reader, fetch, treats the value as
a string). -/
def CriteriaM.asCriteriaString : CriteriaM → String
  | .nullish => ""
  | .str s => s
  | .qry q => q.query

/-- browse(criteria): augment through fields, GET the endpoint URL
through the injected transport, and wrap the payload in a new
ResourceCollection. -/
def RE.browse (rf : Resourceful) (transportGet : String → Except String RawData)
    (criteria : CriteriaM) : Except String RCState :=
  match RE.getRelatedThroughFields rf criteria with
  | .error e => .error e
  | .ok c2 =>
    match transportGet (RE.endPointUrl rf none c2) with
    | .error e => .error e
    | .ok json => RCState.new json c2.asCriteriaString (some rf)

/-- The first regex replace of ResourceCollection.fetch
(`replace(/^.+\?/, '')`): strip everything up to the last `?`, provided
at least one character stands before it. -/
def stripBeforeQuery (s : String) : String :=
  let parts := strSplit s '?'
  match parts with
  | [] => s
  | [_] => s
  | first :: rest =>
    if first = "" ∧ rest.length = 1 then s else (parts.getLast?).getD s

/-- Attempt to match `owner=[^&]+` at the head of a character list,
returning the remainder after the matched run. -/
def matchOwnerAt (l : List Char) : Option (List Char) :=
  if chPrefix "owner=".toList l then
    let rest := l.drop 6
    let run := rest.takeWhile (fun c => c ≠ '&')
    if run.isEmpty then none else some (rest.drop run.length)
  else none

/-- The second regex replace of fetch (`replace(/&?owner=[^&]+/, '')`):
delete the first occurrence of an optional ampersand followed by an
owner parameter. -/
def stripOwnerGo : List Char → List Char
  | [] => []
  | c :: cs =>
    match matchOwnerAt (c :: cs) with
    | some rest => rest
    | none =>
      if c = '&' then
        match matchOwnerAt cs with
        | some rest => rest
        | none => c :: stripOwnerGo cs
      else c :: stripOwnerGo cs

/-- The owner-parameter strip over strings. -/
def stripOwnerParam (s : String) : String := String.mk (stripOwnerGo s.toList)

/-- The criteria actually browsed by fetch: the continuation URL when
truthy (else the initial criteria), with the path prefix and the owner
parameter stripped. -/
def RC.fetchCriteria (initialCriteria newCriteria : String) : String :=
  stripOwnerParam (stripBeforeQuery
    (if newCriteria ≠ "" then newCriteria else initialCriteria))

/-- fetch at the raw-payload level: re-browse with the processed
criteria through the endpoint, rejecting with the collection sentinel
when the collection has no endpoint.  browseFn abstracts
browse ∘ endPointUrl ∘ transport for this endpoint and returns the raw
payload. -/
def RC.fetchM (browseFn : String → Except String RawData) (hasEndpoint : Bool)
    (initialCriteria newCriteria : String) : Except String RawData :=
  if hasEndpoint then browseFn (RC.fetchCriteria initialCriteria newCriteria)
  else .error NO_RESOURCEFUL_ENDPOINT_ERROR_COLLECTION

/-- nextPage at the raw-payload level: reading next of an absent meta
throws; a falsy next rejects with the No next page signal; otherwise the
continuation URL is fetched. -/
def RC.nextPageM (browseFn : String → Except String RawData) (hasEndpoint : Bool)
    (initialCriteria : String) (rd : RawData) : Except String RawData :=
  match rd.meta with
  | none => .error "TypeError"
  | some m =>
    match m.next with
    | some u =>
      if u = "" then .error NO_NEXT_PAGE_ERROR
      else RC.fetchM browseFn hasEndpoint initialCriteria u
    | none => .error NO_NEXT_PAGE_ERROR

/-- `if (!linked[key]) linked[key] = []; linked[key] =
linked[key].concat(value)`: concatenate onto an existing key in place,
or append the key. -/
def upsertConcat : List (String × List Obj) → String → List Obj → List (String × List Obj)
  | [], k, v => [(k, v)]
  | kv :: rest, k, v =>
    if kv.1 = k then (k, kv.2 ++ v) :: rest
    else kv :: upsertConcat rest k v

/-- Merge every key of a page's linked map into the accumulator's linked
map, in page key order. -/
def mergeLinkedMaps (al pl : List (String × List Obj)) : List (String × List Obj) :=
  pl.foldl (fun acc kv => upsertConcat acc kv.1 kv.2) al

/-- The accumulator of all(): the shallow-copied first page's raw
payload, mutated in place.  It differs from RawData only in the
plural-name array's element type: the code's
rawData[pluralName].concat(page.rawData[pluralName]) appends one
literal undefined element when a later page lacks that array, so the
accumulated array holds possibly-undefined entries (none models the
undefined element). -/
structure AccRaw where
  items : Option (List (Option Obj)) := none
  linked : Option (List (String × List Obj)) := none
  meta : Option PageMeta := none
deriving DecidableEq, Repr

/-- The first accumulate call: Object.assign copies the first page's
collection, sharing its raw payload, which becomes the accumulator. -/
def RawData.toAcc (rd : RawData) : AccRaw :=
  { items := rd.items.map (fun l => l.map some), linked := rd.linked, meta := rd.meta }

/-- One accumulation step of all(): concatenate the page's plural-name
array onto the accumulator's (.concat of an absent accumulator array
throws a TypeError; a page lacking the array makes concat(undefined)
append one undefined element instead of that page's entities), and fold
the page's linked entries into the accumulator's linked map (a
non-empty page linked map with no accumulator linked map throws a
TypeError, from indexing an undefined object). -/
def RC.mergeRaw (acc : AccRaw) (p : RawData) : Except String AccRaw :=
  match acc.items with
  | none => .error "TypeError"
  | some ai =>
    let items2 := some (ai ++ (match p.items with
      | some l => l.map some
      | none => [none]))
    match p.linked with
    | none => .ok { acc with items := items2 }
    | some pl =>
      match acc.linked with
      | some al => .ok { acc with items := items2, linked := some (mergeLinkedMaps al pl) }
      | none =>
        if pl.isEmpty then .ok { acc with items := items2 }
        else .error "TypeError"

/-- The recursive accumulate of all(): request the current page's next
page; suppress exactly the No next page rejection (strict comparison
against the exported constant) and return the accumulator; merge any
fetched page and recurse; propagate any other error.  Fuel bounds the
recursion; every theorem supplies enough fuel for its page chain. -/
def RE.allGo (browseFn : String → Except String RawData) (initialCriteria : String) :
    Nat → AccRaw → RawData → Except String AccRaw
  | 0, _, _ => .error "ModelLimitation: out of fuel"
  | fuel + 1, acc, current =>
    match RC.nextPageM browseFn true initialCriteria current with
    | .error e => if e = NO_NEXT_PAGE_ERROR then .ok acc else .error e
    | .ok next =>
      match RC.mergeRaw acc next with
      | .error e => .error e
      | .ok acc2 => RE.allGo browseFn initialCriteria fuel acc2 next

/-- all(criteria) at the raw-payload level: browse the first page, copy
it into the accumulator, then accumulate until the pagination signal. -/
def RE.allM (browseFn : String → Except String RawData) (fuel : Nat)
    (criteria : String) : Except String AccRaw :=
  match browseFn criteria with
  | .error e => .error e
  | .ok p1 => RE.allGo browseFn criteria fuel (RawData.toAcc p1) p1

/-- setData over an accumulated payload: as RC.mkResources, except that
a literal undefined array element is first copied by Object.assign into
an empty object, from which the Resource is then built. -/
def RC.mkResourcesAcc (endpoint : Option Resourceful) (rd : AccRaw) :
    Except String (List ResourceM) :=
  match endpoint with
  | none => .ok []
  | some rf =>
    match rd.items with
    | none => .ok []
    | some items => listMapE (fun it => mkResourceFrom rf rd.linked (it.getD [])) items

/-- A ResourceCollection over an accumulated payload (the fresh Entity
Set all() resolves with). -/
structure AccRCState where
  rawData : AccRaw
  collection : List ResourceM := []
  initialCriteria : String := ""
  endpoint : Option Resourceful := none
deriving DecidableEq, Repr

/-- The ResourceCollection constructor (which runs setData) applied to
an accumulated payload. -/
def AccRCState.new (rawData : AccRaw) (initialCriteria : String)
    (endpoint : Option Resourceful) : Except String AccRCState :=
  (RC.mkResourcesAcc endpoint rawData).map
    (fun coll => { rawData := rawData, collection := coll,
                   initialCriteria := initialCriteria, endpoint := endpoint })

/-- all(criteria) in full: the accumulated payload is handed to the
ResourceCollection constructor together with the first page's
initialCriteria (which browse set to the requested criteria) and the
endpoint, yielding the fresh Entity Set; a constructor throw or any
unsuppressed pagination error rejects the whole call. -/
def RE.allSetM (rf : Resourceful) (browseFn : String → Except String RawData)
    (fuel : Nat) (criteria : String) : Except String AccRCState :=
  match RE.allM browseFn fuel criteria with
  | .error e => .error e
  | .ok rd => AccRCState.new rd criteria (some rf)

/-- A page chain: each page's nextPage yields the following page, and
the last page's nextPage rejects with the No next page signal. -/
def RC.chainB (browseFn : String → Except String RawData) (initialCriteria : String) :
    List RawData → Bool
  | [] => true
  | [p] =>
    match RC.nextPageM browseFn true initialCriteria p with
    | .error e => e = NO_NEXT_PAGE_ERROR
    | .ok _ => false
  | p :: q :: rest =>
    (RC.nextPageM browseFn true initialCriteria p == .ok q) &&
      RC.chainB browseFn initialCriteria (q :: rest)

/-- A page chain ending in a pagination error e instead of the
end-of-pages signal. -/
def RC.chainToErrorB (browseFn : String → Except String RawData)
    (initialCriteria : String) (e : String) : List RawData → Bool
  | [] => false
  | [p] =>
    match RC.nextPageM browseFn true initialCriteria p with
    | .error e2 => e2 = e
    | .ok _ => false
  | p :: q :: rest =>
    (RC.nextPageM browseFn true initialCriteria p == .ok q) &&
      RC.chainToErrorB browseFn initialCriteria e (q :: rest)

/-- Whether the keys of a linked map are pairwise distinct (JavaScript
objects cannot carry duplicate keys). -/
def keysNodupB : List (String × List Obj) → Bool
  | [] => true
  | kv :: rest => rest.all (fun kv2 => kv2.1 ≠ kv.1) && keysNodupB rest

/-- The plural-name array of a payload, empty when absent. -/
def itemsD (rd : RawData) : List Obj := rd.items.getD []

/-- The linked array of a payload under one key, empty when the map or
the key is absent. -/
def linkedD (rd : RawData) (k : String) : List Obj :=
  (rd.linked.bind (fun lm => alist.get lm k)).getD []

/-- The linked array of an accumulated payload under one key, empty
when the map or the key is absent. -/
def linkedDA (rd : AccRaw) (k : String) : List Obj :=
  (rd.linked.bind (fun lm => alist.get lm k)).getD []

/-- C10: for every criteria object with a non-empty query string none of
whose ampersand-separated fragments begins with `include=`, the endpoint
through-field augmentation throws a TypeError (replace invoked on the
undefined result of the include lookup) rather than returning the
criteria unchanged — and browse, which invokes it before issuing the
GET, propagates that throw regardless of the transport; criteria that
are falsy or lack a query property are returned untouched. -/
theorem getRelatedThroughFields_typeerror (rf : Resourceful) :
    (∀ q : QueryState, q.query ≠ "" →
      (∀ p ∈ strSplit q.query '&', strStartsWith p "include=" = false) →
      RE.getRelatedThroughFields rf (.qry q) = .error "TypeError" ∧
      (∀ tg : String → Except String RawData,
        RE.browse rf tg (.qry q) = .error "TypeError")) ∧
    RE.getRelatedThroughFields rf .nullish = .ok .nullish ∧
    (∀ s : String, RE.getRelatedThroughFields rf (.str s) = .ok (.str s)) := by
  refine ⟨?_, rfl, fun s => rfl⟩
  intro q hq hnone
  have hfind : (strSplit q.query '&').find? (fun p => strStartsWith p "include=") = none := by
    rw [List.find?_eq_none]
    intro p hp
    simp [hnone p hp]
  have hmain : RE.getRelatedThroughFields rf (.qry q) = .error "TypeError" := by
    simp only [RE.getRelatedThroughFields, hq, if_neg, hfind]
    simp
  refine ⟨hmain, fun tg => ?_⟩
  rw [RE.browse, hmain]

/-- Witness for getRelatedThroughFields_typeerror: a one-predicate query
with no include fragment throws. -/
theorem getRelatedThroughFields_typeerror_witness :
    RE.getRelatedThroughFields { pluralName := "contents", singularName := "content" }
        (.qry { query := "withTitle=foo", sort := none, sortModifier := "" })
      = .error "TypeError" :=
  ((getRelatedThroughFields_typeerror
      { pluralName := "contents", singularName := "content" }).1
    { query := "withTitle=foo", sort := none, sortModifier := "" }
    (by decide) (by decide)).1

/-- A key absent from every entry looks up to none. -/
theorem alist_get_none_of_all_ne {α : Type} (l : List (String × α)) (k : String)
    (h : l.all (fun kv => kv.1 ≠ k) = true) : alist.get l k = none := by
  induction l with
  | nil => rfl
  | cons kv rest ih =>
    simp only [List.all_cons, Bool.and_eq_true] at h
    have hk : kv.1 ≠ k := by simpa using h.1
    have hstep : alist.get (kv :: rest) k = alist.get rest k := by
      simp [alist.get, List.find?_cons, hk]
    rw [hstep]
    exact ih h.2

/-- upsertConcat concatenates onto the looked-up key. -/
theorem upsertConcat_get_same (al : List (String × List Obj)) (k : String) (v : List Obj) :
    alist.get (upsertConcat al k v) k = some ((alist.get al k).getD [] ++ v) := by
  induction al with
  | nil => simp [upsertConcat, alist.get, List.find?_cons]
  | cons kv rest ih =>
    obtain ⟨k0, v0⟩ := kv
    by_cases hk : k0 = k
    · simp [upsertConcat, hk, alist.get, List.find?_cons]
    · simpa [upsertConcat, hk, alist.get, List.find?_cons] using ih

/-- upsertConcat leaves other keys unchanged. -/
theorem upsertConcat_get_other (al : List (String × List Obj)) (k : String) (v : List Obj)
    (k2 : String) (h : k2 ≠ k) :
    alist.get (upsertConcat al k v) k2 = alist.get al k2 := by
  induction al with
  | nil => simp [upsertConcat, alist.get, List.find?_cons, Ne.symm h]
  | cons kv rest ih =>
    obtain ⟨k0, v0⟩ := kv
    by_cases hk : k0 = k
    · subst hk
      simp [upsertConcat, alist.get, List.find?_cons, Ne.symm h]
    · simp only [upsertConcat, hk, if_false]
      by_cases hk2 : k0 = k2
      · simp [alist.get, List.find?_cons, hk2]
      · simpa [alist.get, List.find?_cons, hk2] using ih

/-- Merging a duplicate-free page linked map concatenates key-wise. -/
theorem mergeLinkedMaps_get (pl : List (String × List Obj)) :
    ∀ (al : List (String × List Obj)), keysNodupB pl = true → ∀ k,
    (alist.get (mergeLinkedMaps al pl) k).getD []
      = (alist.get al k).getD [] ++ (alist.get pl k).getD [] := by
  induction pl with
  | nil => intro al _ k; simp [mergeLinkedMaps, alist.get]
  | cons kv tl ih =>
    intro al hnd k
    obtain ⟨k0, v0⟩ := kv
    simp only [keysNodupB, Bool.and_eq_true] at hnd
    have hstep : mergeLinkedMaps al ((k0, v0) :: tl)
        = mergeLinkedMaps (upsertConcat al k0 v0) tl := by
      simp [mergeLinkedMaps]
    rw [hstep, ih (upsertConcat al k0 v0) hnd.2 k]
    by_cases hk : k = k0
    · subst hk
      have htl : alist.get tl k = none := alist_get_none_of_all_ne tl k (by
        simpa using hnd.1)
      have hcons : alist.get ((k, v0) :: tl) k = some v0 := by
        simp [alist.get, List.find?_cons]
      rw [upsertConcat_get_same, htl, hcons]
      simp
    · have hcons : alist.get ((k0, v0) :: tl) k = alist.get tl k := by
        simp [alist.get, List.find?_cons, Ne.symm hk]
      rw [upsertConcat_get_other al k0 v0 k hk, hcons]

/-- One accumulation step succeeds when the accumulator and the page
both carry the plural array and the accumulator either already has a
linked map or the page contributes no linked entries; items and every
linked key concatenate, meta is kept. -/
theorem mergeRaw_ok (acc : AccRaw) (q : RawData)
    (hai : acc.items.isSome = true)
    (hqi : q.items.isSome = true)
    (hnd : keysNodupB (q.linked.getD []) = true)
    (hl : acc.linked.isSome = true ∨ (q.linked.getD []).isEmpty = true) :
    ∃ acc2, RC.mergeRaw acc q = .ok acc2 ∧
      acc2.items = some (acc.items.getD [] ++ (itemsD q).map some) ∧
      (∀ k, linkedDA acc2 k = linkedDA acc k ++ linkedD q k) ∧
      acc2.meta = acc.meta ∧ acc2.items.isSome = true ∧
      (acc.linked.isSome = true → acc2.linked.isSome = true) := by
  obtain ⟨ai, hai2⟩ := Option.isSome_iff_exists.mp hai
  obtain ⟨qi, hqi2⟩ := Option.isSome_iff_exists.mp hqi
  rcases hql : q.linked with _ | pl
  · refine ⟨{ acc with items := some (ai ++ qi.map some) }, ?_, ?_, ?_, rfl, by simp, by simp⟩
    · rw [RC.mergeRaw, hai2]
      simp [hql, hqi2]
    · simp [itemsD, hai2, hqi2]
    · intro k
      simp [linkedDA, linkedD, hql]
  · rcases hal : acc.linked with _ | al
    · have hemp : pl.isEmpty = true := by
        rcases hl with hl | hl
        · rw [hal] at hl
          simp at hl
        · rw [hql] at hl
          simpa using hl
      have hpl : pl = [] := by
        cases pl
        · rfl
        · simp [List.isEmpty] at hemp
      subst hpl
      refine ⟨{ acc with items := some (ai ++ qi.map some) }, ?_, ?_, ?_, rfl, by simp, ?_⟩
      · rw [RC.mergeRaw, hai2]
        simp [hql, hal, hqi2]
      · simp [itemsD, hai2, hqi2]
      · intro k
        simp [linkedDA, linkedD, hql, alist.get]
      · intro hcontra
        simp [hal] at hcontra
    · rw [hql] at hnd
      simp only [Option.getD_some] at hnd
      refine ⟨{ acc with items := some (ai ++ qi.map some), linked := some (mergeLinkedMaps al pl) }, ?_, ?_, ?_, rfl, by simp, by simp⟩
      · rw [RC.mergeRaw, hai2]
        simp [hql, hal, hqi2]
      · simp [itemsD, hai2, hqi2]
      · intro k
        simp only [linkedDA, linkedD, hql, hal, Option.some_bind, Option.getD_some]
        exact mergeLinkedMaps_get pl al hnd k

/-- Accumulation along a well-formed page chain ends at the No next page
signal with the concatenated payload. -/
theorem allGo_chain (browseFn : String → Except String RawData) (criteria : String) :
    ∀ (rest : List RawData) (fuel : Nat) (acc : AccRaw) (current : RawData),
    rest.length < fuel →
    RC.chainB browseFn criteria (current :: rest) = true →
    acc.items.isSome = true →
    (∀ p ∈ rest, p.items.isSome = true) →
    (∀ p ∈ rest, keysNodupB (p.linked.getD []) = true) →
    (acc.linked.isSome = true ∨ ∀ p ∈ rest, (p.linked.getD []).isEmpty = true) →
    ∃ res, RE.allGo browseFn criteria fuel acc current = .ok res ∧
      res.items = some (acc.items.getD [] ++ ((rest.map itemsD).flatten).map some) ∧
      (∀ k, linkedDA res k = linkedDA acc k ++ (rest.map (fun p => linkedD p k)).flatten) ∧
      res.meta = acc.meta := by
  intro rest
  induction rest with
  | nil =>
    intro fuel acc current hfuel hchain hacc _ _ _
    obtain ⟨f, rfl⟩ : ∃ f, fuel = f + 1 := ⟨fuel - 1, by omega⟩
    obtain ⟨ai, hai⟩ := Option.isSome_iff_exists.mp hacc
    rw [RE.allGo]
    rcases hnp : RC.nextPageM browseFn true criteria current with e | p
    · rw [RC.chainB, hnp] at hchain
      simp only [decide_eq_true_eq] at hchain
      refine ⟨acc, ?_, ?_, ?_, rfl⟩
      · simp [hchain]
      · simp [hai]
      · intro k
        simp
    · rw [RC.chainB, hnp] at hchain
      simp at hchain
  | cons q rest ih =>
    intro fuel acc current hfuel hchain hacc hitems hnd hl
    obtain ⟨f, rfl⟩ : ∃ f, fuel = f + 1 := ⟨fuel - 1, by omega⟩
    rw [RC.chainB, Bool.and_eq_true, beq_iff_eq] at hchain
    obtain ⟨hnp, hch2⟩ := hchain
    have hmerge := mergeRaw_ok acc q hacc (hitems q (by simp)) (hnd q (by simp)) (by
      rcases hl with hl | hl
      · exact Or.inl hl
      · exact Or.inr (hl q (by simp)))
    obtain ⟨acc2, hm, hit, hlk, hmeta, hsome2, hpres⟩ := hmerge
    have hl2 : acc2.linked.isSome = true ∨ ∀ p ∈ rest, (p.linked.getD []).isEmpty = true := by
      rcases hl with hl | hl
      · exact Or.inl (hpres hl)
      · exact Or.inr (fun p hp => hl p (by simp [hp]))
    have hrec := ih f acc2 q (by simpa using hfuel) hch2 hsome2
      (fun p hp => hitems p (by simp [hp]))
      (fun p hp => hnd p (by simp [hp])) hl2
    obtain ⟨res, hgo, hri, hrl, hrm⟩ := hrec
    refine ⟨res, ?_, ?_, ?_, ?_⟩
    · simp only [RE.allGo, hnp, hm]
      exact hgo
    · rw [hri]
      have h2 : acc2.items.getD [] = acc.items.getD [] ++ (itemsD q).map some := by
        simp [hit]
      rw [h2]
      simp [List.flatten, List.append_assoc]
    · intro k
      rw [hrl k, hlk k]
      simp [List.flatten, List.append_assoc]
    · rw [hrm, hmeta]

/-- Accumulation along a chain ending in any error other than the No
next page signal propagates that error. -/
theorem allGo_chainToError (browseFn : String → Except String RawData) (criteria : String)
    (e : String) (hne : e ≠ NO_NEXT_PAGE_ERROR) :
    ∀ (rest : List RawData) (fuel : Nat) (acc : AccRaw) (current : RawData),
    rest.length < fuel →
    RC.chainToErrorB browseFn criteria e (current :: rest) = true →
    acc.items.isSome = true →
    (∀ p ∈ rest, p.items.isSome = true) →
    (∀ p ∈ rest, keysNodupB (p.linked.getD []) = true) →
    (acc.linked.isSome = true ∨ ∀ p ∈ rest, (p.linked.getD []).isEmpty = true) →
    RE.allGo browseFn criteria fuel acc current = .error e := by
  intro rest
  induction rest with
  | nil =>
    intro fuel acc current hfuel hchain hacc _ _ _
    obtain ⟨f, rfl⟩ : ∃ f, fuel = f + 1 := ⟨fuel - 1, by omega⟩
    rw [RE.allGo]
    rcases hnp : RC.nextPageM browseFn true criteria current with e2 | p
    · rw [RC.chainToErrorB, hnp] at hchain
      simp only [decide_eq_true_eq] at hchain
      subst hchain
      simp [hne]
    · rw [RC.chainToErrorB, hnp] at hchain
      simp at hchain
  | cons q rest ih =>
    intro fuel acc current hfuel hchain hacc hitems hnd hl
    obtain ⟨f, rfl⟩ : ∃ f, fuel = f + 1 := ⟨fuel - 1, by omega⟩
    rw [RC.chainToErrorB, Bool.and_eq_true, beq_iff_eq] at hchain
    obtain ⟨hnp, hch2⟩ := hchain
    obtain ⟨acc2, hm, _, _, _, hsome2, hpres⟩ :=
      mergeRaw_ok acc q hacc (hitems q (by simp)) (hnd q (by simp)) (by
      rcases hl with hl | hl
      · exact Or.inl hl
      · exact Or.inr (hl q (by simp)))
    have hl2 : acc2.linked.isSome = true ∨ ∀ p ∈ rest, (p.linked.getD []).isEmpty = true := by
      rcases hl with hl | hl
      · exact Or.inl (hpres hl)
      · exact Or.inr (fun p hp => hl p (by simp [hp]))
    simp only [RE.allGo, hnp, hm]
    exact ih f acc2 q (by simpa using hfuel) hch2 hsome2
      (fun p hp => hitems p (by simp [hp]))
      (fun p hp => hnd p (by simp [hp])) hl2

/-- C4 (amended): for every sequence of pages linked via meta.next whose
pages all carry the plural-name array (a later page lacking it would
make the in-place concat append a literal undefined element rather than
that page's entities) and duplicate-free linked maps, and whose first
page carries a linked map whenever a later page carries a non-empty one
(otherwise the in-place merge throws a TypeError, as the counterexample
shows), all(criteria) accumulates a raw payload in which the
plural-name arrays of all pages are concatenated in page order and each
linked sub-array is likewise concatenated, keeping the first page's
meta, and resolves with the fresh Entity Set obtained by handing that
accumulated payload, the requested criteria and the endpoint to the
ResourceCollection constructor; the No next page rejection terminating
the loop is suppressed and never surfaced to the caller, while a chain
ending in any other pagination error rejects the whole call with
exactly that error, aborting accumulation. -/
theorem all_accumulation_amended (rf : Resourceful)
    (browseFn : String → Except String RawData)
    (criteria : String) (fuel : Nat) (p0 : RawData) (rest : List RawData)
    (hb : browseFn criteria = .ok p0)
    (hfuel : rest.length < fuel)
    (hi : ∀ p ∈ p0 :: rest, p.items.isSome = true)
    (hnd : ∀ p ∈ p0 :: rest, keysNodupB (p.linked.getD []) = true)
    (hl : p0.linked.isSome = true ∨ ∀ p ∈ rest, (p.linked.getD []).isEmpty = true) :
    (RC.chainB browseFn criteria (p0 :: rest) = true →
      ∃ acc, RE.allM browseFn fuel criteria = .ok acc ∧
        acc.items = some ((((p0 :: rest).map itemsD).flatten).map some) ∧
        (∀ k, linkedDA acc k = ((p0 :: rest).map (fun p => linkedD p k)).flatten) ∧
        acc.meta = p0.meta ∧
        RE.allSetM rf browseFn fuel criteria = AccRCState.new acc criteria (some rf)) ∧
    (∀ e, e ≠ NO_NEXT_PAGE_ERROR →
      RC.chainToErrorB browseFn criteria e (p0 :: rest) = true →
      RE.allM browseFn fuel criteria = .error e ∧
      RE.allSetM rf browseFn fuel criteria = .error e) := by
  obtain ⟨i0, hi0⟩ := Option.isSome_iff_exists.mp (hi p0 (by simp))
  constructor
  · intro hchain
    obtain ⟨res, hgo, hri, hrl, hrm⟩ := allGo_chain browseFn criteria rest fuel
      (RawData.toAcc p0) p0 hfuel hchain (by simp [RawData.toAcc, hi0])
      (fun p hp => hi p (by simp [hp]))
      (fun p hp => hnd p (by simp [hp]))
      (by simpa [RawData.toAcc] using hl)
    have hallM : RE.allM browseFn fuel criteria = .ok res := by
      simp only [RE.allM, hb]
      exact hgo
    refine ⟨res, hallM, ?_, ?_, ?_, ?_⟩
    · rw [hri]
      have h2 : (RawData.toAcc p0).items.getD [] = (itemsD p0).map some := by
        simp [RawData.toAcc, itemsD, hi0]
      rw [h2]
      simp [List.flatten]
    · intro k
      rw [hrl k]
      simp [linkedDA, RawData.toAcc, linkedD, List.flatten]
    · simpa [RawData.toAcc] using hrm
    · simp only [RE.allSetM, hallM]
  · intro e hne hchain
    have h := allGo_chainToError browseFn criteria e hne rest fuel
      (RawData.toAcc p0) p0 hfuel hchain (by simp [RawData.toAcc, hi0])
      (fun p hp => hi p (by simp [hp]))
      (fun p hp => hnd p (by simp [hp]))
      (by simpa [RawData.toAcc] using hl)
    have hallM : RE.allM browseFn fuel criteria = .error e := by
      simp only [RE.allM, hb]
      exact h
    exact ⟨hallM, by simp only [RE.allSetM, hallM]⟩

/-- C4 counterexample, page 1: no linked side-map. -/
def cex4P0 : RawData :=
  { items := some [[("a", vStr "1")]], linked := none,
    meta := some { next := some "u2" } }

/-- C4 counterexample, page 2: a non-empty linked side-map. -/
def cex4P1 : RawData :=
  { items := some [[("a", vStr "2")]],
    linked := some [("assets", [[("b", vStr "2")]])], meta := some {} }

/-- The transport for the C4 counterexample. -/
def cex4Browse : String → Except String RawData := fun s =>
  if s = "c0" then .ok cex4P0 else if s = "u2" then .ok cex4P1 else .error "unexpected"

/-- C4 counterexample: over a two-page chain whose first page has no
linked map while the second has a non-empty one, all() rejects with a
TypeError (indexing the undefined accumulator linked map) instead of
returning the concatenated Entity Set — an error that is neither
suppressed nor part of the claimed accumulation behaviour. -/
theorem all_missing_linked_counterexample :
    RE.allM cex4Browse 3 "c0" = .error "TypeError" ∧
    cex4P0.linked = none ∧
    (cex4P1.linked.getD []).isEmpty = false := by
  refine ⟨by decide, rfl, by decide⟩

/-- C4 witness, page 1 of 3. -/
def w4P0 : RawData :=
  { items := some [[("r", vStr "1")]],
    linked := some [("assets", [[("x", vStr "a1")]])],
    meta := some { next := some "/contents?owner=t&page=2", totalCount := some 3 } }

/-- C4 witness, page 2 of 3 (brings a second linked key). -/
def w4P1 : RawData :=
  { items := some [[("r", vStr "2")]],
    linked := some [("assets", [[("x", vStr "a2")]]),
                    ("categories", [[("y", vStr "c1")]])],
    meta := some { next := some "/contents?owner=t&page=3" } }

/-- C4 witness, page 3 of 3 (last page, no next link). -/
def w4P2 : RawData :=
  { items := some [[("r", vStr "3")]], linked := none, meta := some {} }

/-- The transport for the C4 witness; continuation URLs arrive with the
path and owner parameter already stripped by fetch. -/
def w4Browse : String → Except String RawData := fun s =>
  if s = "c0" then .ok w4P0
  else if s = "&page=2" then .ok w4P1
  else if s = "&page=3" then .ok w4P2
  else .error "unexpected"

/-- The endpoint descriptor for the C4 witness: no relationships are
configured, so the constructor's linked filtering keeps every item. -/
def w4Rf : Resourceful := { pluralName := "contents", singularName := "content" }

/-- The expected accumulated payload for the C4 witness. -/
def w4Acc : AccRaw :=
  { items := some [some [("r", vStr "1")], some [("r", vStr "2")], some [("r", vStr "3")]],
    linked := some [("assets", [[("x", vStr "a1")], [("x", vStr "a2")]]),
                    ("categories", [[("y", vStr "c1")]])],
    meta := some { next := some "/contents?owner=t&page=2", totalCount := some 3 } }

/-- The accumulated linked map of the C4 witness, kept whole in each
Resource's buckets by the keep-everything filter. -/
def w4Linked : List (String × List Obj) :=
  [("assets", [[("x", vStr "a1")], [("x", vStr "a2")]]),
   ("categories", [[("y", vStr "c1")]])]

/-- The collection of the fresh Entity Set the C4 witness resolves
with: one Resource per accumulated item, each carrying both linked
buckets. -/
def w4Coll : List ResourceM :=
  [{ ResourceM.new [("r", vStr "1")] (some w4Rf) with linked := some w4Linked },
   { ResourceM.new [("r", vStr "2")] (some w4Rf) with linked := some w4Linked },
   { ResourceM.new [("r", vStr "3")] (some w4Rf) with linked := some w4Linked }]

/-- The fresh Entity Set the C4 witness resolves with. -/
def w4Set : AccRCState :=
  { rawData := w4Acc, collection := w4Coll, initialCriteria := "c0",
    endpoint := some w4Rf }

/-- Witness for all_accumulation_amended over a concrete three-page
chain: the accumulated payload concatenates all item arrays and both
linked keys, and all() resolves with the fresh Entity Set built from
it. -/
theorem all_accumulation_amended_witness :
    RE.allM w4Browse 4 "c0" = .ok w4Acc ∧
    w4Acc.items = some ((([w4P0, w4P1, w4P2].map itemsD).flatten).map some) ∧
    linkedDA w4Acc "assets" = ([w4P0, w4P1, w4P2].map (fun p => linkedD p "assets")).flatten ∧
    linkedDA w4Acc "categories"
      = ([w4P0, w4P1, w4P2].map (fun p => linkedD p "categories")).flatten ∧
    RE.allSetM w4Rf w4Browse 4 "c0" = .ok w4Set := by
  obtain ⟨acc, h1, h2, h3, h4, h5⟩ :=
    (all_accumulation_amended w4Rf w4Browse "c0" 4 w4P0 [w4P1, w4P2]
      (by decide) (by decide) (by decide) (by decide) (by decide)).1 (by decide)
  have hc : RE.allM w4Browse 4 "c0" = .ok w4Acc := by decide
  have hacc : acc = w4Acc := by
    rw [hc] at h1
    injection h1 with h
    exact h.symm
  subst hacc
  refine ⟨hc, h2, h3 "assets", h3 "categories", ?_⟩
  rw [h5]
  decide
